import Mathlib

/-!
Verification development for the ai-hedge-fund core subsystems:
the Incremental Cache (src/data/cache.py), the Resilient Invoker
(src/utils/llm.py, src/utils/parsing.py) and the Workflow Engine
(src/graph/builder.py, src/agents/fundamentals.py, src/main.py).
Python functions are shallowly embedded as Lean functions; raised
exceptions are modelled with Except, Python None with Option.
-/

namespace HedgeFund

/-! ## JSON values and a model of Python json.loads

The repository calls the standard-library json.loads on model responses.
We model JSON values as an inductive type and json.loads as a recursive
descent parser over the subset the repository exercises: null, booleans,
integers, strings without escape sequences, arrays and objects, with
JSON whitespace.  Parse failure (json.JSONDecodeError) is None. -/

inductive Json where
  | null : Json
  | bool (b : Bool) : Json
  | num (n : Int) : Json
  | str (s : String) : Json
  | arr (xs : List Json) : Json
  | obj (kvs : List (String × Json)) : Json

abbrev Chars := List Char

def lbraceC : Char := Char.ofNat 123

def rbraceC : Char := Char.ofNat 125

def isJsonWs (c : Char) : Bool :=
  c = ' ' || c = '\t' || c = '\n' || c = '\r'

def skipWs (s : Chars) : Chars := s.dropWhile isJsonWs

/-- Parse the body of a JSON string after the opening quote; escape
sequences are outside the modelled subset and fail the parse. -/
def parseStrChars : Chars → Option (Chars × Chars)
  | [] => none
  | c :: rest =>
    if c = '"' then some ([], rest)
    else if c = '\\' then none
    else do
      let (body, r) ← parseStrChars rest
      some (c :: body, r)

def digitsToNat (ds : Chars) : Nat :=
  ds.foldl (fun a c => a * 10 + (c.toNat - 48)) 0

def parseIntToken (s : Chars) : Option (Int × Chars) :=
  match s with
  | '-' :: rest =>
    let ds := rest.takeWhile Char.isDigit
    if ds.isEmpty then none
    else some (-(digitsToNat ds : Int), rest.dropWhile Char.isDigit)
  | _ =>
    let ds := s.takeWhile Char.isDigit
    if ds.isEmpty then none
    else some ((digitsToNat ds : Int), s.dropWhile Char.isDigit)

def expectLit (lit : Chars) (s : Chars) : Option Chars :=
  if lit.isPrefixOf s then some (s.drop lit.length) else none

mutual

def parseValue : Nat → Chars → Option (Json × Chars)
  | 0, _ => none
  | fuel + 1, s =>
    match skipWs s with
    | [] => none
    | c :: rest =>
      if c = '"' then
        (parseStrChars rest).map (fun p => (Json.str (String.mk p.1), p.2))
      else if c = 't' then
        (expectLit "rue".toList rest).map (fun r => (Json.bool true, r))
      else if c = 'f' then
        (expectLit "alse".toList rest).map (fun r => (Json.bool false, r))
      else if c = 'n' then
        (expectLit "ull".toList rest).map (fun r => (Json.null, r))
      else if c = '[' then
        (parseArrItems fuel (skipWs rest)).map (fun p => (Json.arr p.1, p.2))
      else if c = lbraceC then
        (parseObjItems fuel (skipWs rest)).map (fun p => (Json.obj p.1, p.2))
      else
        (parseIntToken (c :: rest)).map (fun p => (Json.num p.1, p.2))

def parseArrItems : Nat → Chars → Option (List Json × Chars)
  | 0, _ => none
  | fuel + 1, s =>
    match s with
    | ']' :: r => some ([], r)
    | _ => do
      let (v, r) ← parseValue fuel s
      match skipWs r with
      | ']' :: r2 => some ([v], r2)
      | ',' :: r2 => do
        let (vs, r3) ← parseArrItems fuel (skipWs r2)
        some (v :: vs, r3)
      | _ => none

def parseObjItems : Nat → Chars → Option (List (String × Json) × Chars)
  | 0, _ => none
  | fuel + 1, s =>
    match s with
    | c :: r =>
      if c = rbraceC then some ([], r)
      else if c = '"' then do
        let (key, r2) ← parseStrChars r
        match skipWs r2 with
        | ':' :: r3 => do
          let (v, r4) ← parseValue fuel r3
          match skipWs r4 with
          | c2 :: r5 =>
            if c2 = rbraceC then some ([(String.mk key, v)], r5)
            else if c2 = ',' then do
              let (kvs, r6) ← parseObjItems fuel (skipWs r5)
              some ((String.mk key, v) :: kvs, r6)
            else none
          | [] => none
        | _ => none
      else none
    | [] => none

end

/-- Model of Python json.loads restricted to the subset above: parse one
value and require only whitespace to remain; any failure is None. -/
def jsonLoads (s : String) : Option Json :=
  match parseValue (2 * s.length + 2) s.toList with
  | some (v, rest) => if (skipWs rest).isEmpty then some v else none
  | none => none

def Json.isObj : Json → Bool
  | .obj _ => true
  | _ => false

/-! ## src/utils/parsing.py -/

/-- Argument of parse_json_response: Python values are either strings or
(for the isinstance check) anything else. -/
inductive PyInput where
  | str (s : String) : PyInput
  | nonStr : PyInput

/-- Embedding of parse_json_response (src/utils/parsing.py lines 6-18):
non-string input returns None; json.loads errors are caught and return
None; otherwise the parsed value is returned. -/
def parse_json_response : PyInput → Option Json
  | .str s => jsonLoads s
  | .nonStr => none

def jlookup (kvs : List (String × Json)) (k : String) : Option Json :=
  (kvs.find? (fun p => p.1 = k)).map (fun p => p.2)

/-- Embedding of the tail of run_hedge_fund (src/main.py lines 79-84):
decisions is parsed_response.get of the decisions key when the parsed
response is a dict, else None. -/
def runHedgeFundDecisions (finalMessageContent : PyInput) : Option Json :=
  match parse_json_response finalMessageContent with
  | some (Json.obj kvs) => jlookup kvs "decisions"
  | _ => none

/-! ## src/utils/llm.py: extract_json_from_response -/

/-- Index of the first occurrence of needle in the haystack, as in
Python str.find (None for -1). -/
def findSub (needle : Chars) : Chars → Option Nat
  | [] => if needle.isPrefixOf ([] : Chars) then some 0 else none
  | c :: t =>
    if needle.isPrefixOf (c :: t) then some 0
    else (findSub needle t).map (fun i => i + 1)

def thinkOpen : Chars := "<think>".toList

def thinkClose : Chars := "</think>".toList

/-- Model of re.sub applied to the think-block pattern with empty
replacement and DOTALL: repeatedly delete the span from the leftmost
opening tag through the first closing tag after it; an opening tag
with no later closing tag matches nothing and scanning stops.  Every
deleted span covers at least one character, so the fuel passed by
removeThink makes the fuel-exhausted branch unreachable. -/
def removeThinkFuel : Nat → Chars → Chars
  | 0, s => s
  | fuel + 1, s =>
    match findSub thinkOpen s with
    | none => s
    | some i =>
      let afterOpen := s.drop (i + 7)
      match findSub thinkClose afterOpen with
      | none => s
      | some j => s.take i ++ removeThinkFuel fuel (afterOpen.drop (j + 8))

def removeThink (s : Chars) : Chars := removeThinkFuel (s.length + 1) s

/-- Python str.strip whitespace predicate (space, tab, newline, carriage
return, vertical tab, form feed). -/
def isPyWs (c : Char) : Bool :=
  c = ' ' || c = '\t' || c = '\n' || c = '\r' || c = Char.ofNat 11 || c = Char.ofNat 12

def pyStrip (s : Chars) : Chars :=
  ((s.dropWhile isPyWs).reverse.dropWhile isPyWs).reverse

def jsonFence : Chars := "```json".toList

def tripleTick : Chars := "```".toList

/-- Body of extract_json_from_response on the stripped content: look
for a json-tagged fenced code block and parse its stripped contents,
falling back on the whole remaining content when the block is absent,
unterminated or fails to parse; None when everything fails. -/
def extractCore (c : Chars) : Option Json :=
  match findSub jsonFence c with
  | some i =>
    let jsonTextStart := c.drop (i + 7)
    match findSub tripleTick jsonTextStart with
    | some j =>
      let jsonText := pyStrip (jsonTextStart.take j)
      match jsonLoads (String.mk jsonText) with
      | some v => some v
      | none => jsonLoads (String.mk c)
    | none => jsonLoads (String.mk c)
  | none => jsonLoads (String.mk c)

/-- Embedding of extract_json_from_response (src/utils/llm.py lines
106-139): drop think blocks, strip, then extract. -/
def extract_json_from_response (content : String) : Option Json :=
  extractCore (pyStrip (removeThink content.toList))

/-- Contents of the json-tagged fenced code block, stripped, when a
complete block is present. -/
def fencedBlockContents (c : Chars) : Option Chars :=
  match findSub jsonFence c with
  | some i =>
    match findSub tripleTick (c.drop (i + 7)) with
    | some j => some (pyStrip ((c.drop (i + 7)).take j))
    | none => none
  | none => none

/-- Modelled from the spec for the refinement comparison of C6: ordered
chain of parser strategies, (a) the fenced block contents, (b) on
failure the entire remaining text. -/
def specCore (c : Chars) : Option Json :=
  match fencedBlockContents c with
  | some block => (jsonLoads (String.mk block)).orElse (fun _ => jsonLoads (String.mk c))
  | none => jsonLoads (String.mk c)

/-- Modelled from the spec for the refinement comparison of C6: strip
reasoning markup, then try the parser strategies in fixed order. -/
def extractSpecOrdered (content : String) : Option Json :=
  specCore (pyStrip (removeThink content.toList))

/-! ## src/utils/llm.py: create_default_response and call_llm -/

/-- Default values assigned by create_default_response. -/
inductive DefVal where
  | strV (s : String) : DefVal
  | floatV (q : ℚ) : DefVal
  | intV (n : Int) : DefVal
  | dictV : DefVal
  | litV (s : String) : DefVal
  | noneV : DefVal
deriving DecidableEq

/-- Field annotations as create_default_response inspects them, over the
closed set of field kinds the repository's response models use: str,
float, int, dict-origin generics, Literal (which has a nonempty tuple of
declared options) and plain annotations with neither origin nor args. -/
inductive Ann where
  | strA : Ann
  | floatA : Ann
  | intA : Ann
  | dictA : Ann
  | literalA (first : String) (rest : List String) : Ann
  | plainA : Ann
deriving DecidableEq

/-- Branch chain of create_default_response (src/utils/llm.py lines
84-103) for a single field annotation. -/
def defaultValueFor : Ann → DefVal
  | .strA => .strV "Error in analysis, using default"
  | .floatA => .floatV 0
  | .intA => .intV 0
  | .dictA => .dictV
  | .literalA first _ => .litV first
  | .plainA => .noneV

/-- Embedding of create_default_response: one default value per declared
field of the model class. -/
def create_default_response (fields : List (String × Ann)) : List (String × DefVal) :=
  fields.map (fun p => (p.1, defaultValueFor p.2))

/-- Body of one attempt of the call_llm retry loop: invoke the model
(structured output when the model has json mode), otherwise take the
textual content, extract JSON from it (a None extraction raises
ValueError) and validate it against the pydantic model. -/
def llmAttempt {T : Type} (invokeStructured : Nat → Except Unit T)
    (invokeText : Nat → Except Unit String) (hasJsonMode : Bool)
    (validate : Json → Except Unit T) (attempt : Nat) : Except Unit T :=
  if hasJsonMode then invokeStructured attempt
  else
    match invokeText attempt with
    | .error e => .error e
    | .ok content =>
      match extract_json_from_response content with
      | none => .error ()
      | some parsed => validate parsed

/-- Retry loop of call_llm: on an exception at the final attempt
(remaining = 1, i.e. attempt = max_retries - 1) return the fallback;
when the loop body never runs (remaining 0 from the start) fall through
to the trailing create_default_response return.  The first component
counts the attempts made. -/
def callLlmLoop {T : Type} (attemptOnce : Nat → Except Unit T) (onFinalFail : T)
    (afterLoop : T) : Nat → Nat → Nat × T
  | _, 0 => (0, afterLoop)
  | attempt, r + 1 =>
    match attemptOnce attempt with
    | .ok t => (1, t)
    | .error _ =>
      if r = 0 then (1, onFinalFail)
      else
        let p := callLlmLoop attemptOnce onFinalFail afterLoop (attempt + 1) r
        (p.1 + 1, p.2)

/-- Embedding of call_llm (src/utils/llm.py lines 49-81): bounded retry
around llmAttempt, terminal fallback to default_factory when supplied
and otherwise to the schema-derived default, which is also the value of
the unreachable trailing return. -/
def call_llm {T : Type} (invokeStructured : Nat → Except Unit T)
    (invokeText : Nat → Except Unit String) (hasJsonMode : Bool)
    (validate : Json → Except Unit T) (maxRetries : Nat)
    (defaultFactory : Option T) (schemaDefault : T) : Nat × T :=
  callLlmLoop (llmAttempt invokeStructured invokeText hasJsonMode validate)
    (match defaultFactory with
     | some d => d
     | none => schemaDefault)
    schemaDefault 0 maxRetries

/-! ## src/data/cache.py

Cache records are mappings; we model them as association lists from
field names to integer-coded values, and a raised KeyError as an
Except error.  Each per-kind cache is a map from ticker to stored list,
modelled as a function into Option. -/

abbrev CRec := List (String × Int)

abbrev KindMap := String → Option (List CRec)

/-- Python item subscript access on a record: the first binding of the
field if present. -/
def getItem (r : CRec) (k : String) : Option Int :=
  (r.find? (fun p => p.1 = k)).map (fun p => p.2)

def recHasKey (keyField : String) (r : CRec) : Bool :=
  (getItem r keyField).isSome

/-- Set comprehension over the existing records: every record's key
field value, a missing field raising KeyError. -/
def existingKeyVals (keyField : String) : List CRec → Except Unit (List Int)
  | [] => .ok []
  | r :: rs =>
    match getItem r keyField with
    | none => .error ()
    | some v =>
      match existingKeyVals keyField rs with
      | .error e => .error e
      | .ok vs => .ok (v :: vs)

/-- List comprehension over the new records: keep the records whose key
field value is not among the existing keys, a missing field raising
KeyError. -/
def filterNewRecords (keys : List Int) (keyField : String) : List CRec → Except Unit (List CRec)
  | [] => .ok []
  | r :: rs =>
    match getItem r keyField with
    | none => .error ()
    | some v =>
      match filterNewRecords keys keyField rs with
      | .error e => .error e
      | .ok kept => .ok (if v ∈ keys then kept else r :: kept)

/-- Embedding of Cache._merge_data (src/data/cache.py lines 12-23): a
falsy existing sequence (absent or empty) returns the new data
verbatim; otherwise the existing sequence is kept and the new records
with unseen key values are appended after it. -/
def mergeData : Option (List CRec) → List CRec → String → Except Unit (List CRec)
  | none, newData, _ => .ok newData
  | some ex, newData, keyField =>
    if ex.isEmpty then .ok newData
    else
      match existingKeyVals keyField ex with
      | .error e => .error e
      | .ok keys =>
        match filterNewRecords keys keyField newData with
        | .error e => .error e
        | .ok fresh => .ok (ex ++ fresh)

/-- Shared shape of every per-kind set operation: store into the kind's
map the merge of the currently cached list for the ticker with the new
data under the kind's key field. -/
def setKind (m : KindMap) (keyField ticker : String) (data : List CRec) :
    Except Unit KindMap :=
  match mergeData (m ticker) data keyField with
  | .error e => .error e
  | .ok merged => .ok (Function.update m ticker (some merged))

/-- State of the Cache object: one map per data kind. -/
structure Cache where
  pricesCache : KindMap
  financialMetricsCache : KindMap
  lineItemsCache : KindMap
  insiderTradesCache : KindMap
  companyNewsCache : KindMap
  dividendsCache : KindMap

def Cache.init : Cache :=
  ⟨fun _ => none, fun _ => none, fun _ => none, fun _ => none, fun _ => none, fun _ => none⟩

def Cache.get_prices (c : Cache) (ticker : String) : Option (List CRec) :=
  c.pricesCache ticker

/-- Embedding of Cache.set_prices (src/data/cache.py lines 29-31); the
other five setters differ only in the map and the key field. -/
def Cache.set_prices (c : Cache) (ticker : String) (data : List CRec) : Except Unit Cache :=
  match setKind c.pricesCache "time" ticker data with
  | .error e => .error e
  | .ok m => .ok { c with pricesCache := m }

def Cache.set_financial_metrics (c : Cache) (ticker : String) (data : List CRec) :
    Except Unit Cache :=
  match setKind c.financialMetricsCache "report_period" ticker data with
  | .error e => .error e
  | .ok m => .ok { c with financialMetricsCache := m }

def Cache.set_dividends (c : Cache) (ticker : String) (data : List CRec) : Except Unit Cache :=
  match setKind c.dividendsCache "ex_dividend_date" ticker data with
  | .error e => .error e
  | .ok m => .ok { c with dividendsCache := m }

/-- A sequence of set operations of one data kind, applied in order. -/
def applySets (keyField : String) (m : KindMap) : List (String × List CRec) → Except Unit KindMap
  | [] => .ok m
  | (t, d) :: ops =>
    match setKind m keyField t d with
    | .error e => .error e
    | .ok m2 => applySets keyField m2 ops

/-! ## src/graph/builder.py

The langgraph StateGraph is modelled as an explicit node list, edge
list and entry point; add_node and add_edge append.  ANALYST_CONFIG is
the registry of analyst keys, abstract here since only its key list
shapes the graph. -/

structure StateGraphM where
  nodes : List String
  edges : List (String × String)
  entryPoint : Option String

def StateGraphM.empty : StateGraphM := ⟨[], [], none⟩

def addNode (g : StateGraphM) (n : String) : StateGraphM :=
  { g with nodes := g.nodes ++ [n] }

def addEdge (g : StateGraphM) (a b : String) : StateGraphM :=
  { g with edges := g.edges ++ [(a, b)] }

/-- Sentinel END node of langgraph. -/
def ENDNode : String := "__end__"

/-- Node name of an analyst key, from analyst_node_details. -/
def agentNodeName (key : String) : String := key ++ "_agent"

/-- Selection policy of build_agent_workflow (src/graph/builder.py lines
21-31): None selects every registered key; a non-empty selection with
no registered key falls back to every registered key; an explicitly
empty selection stays empty. -/
def agentsToUse (registry : List String) (selected : Option (List String)) : List String :=
  match selected with
  | none => registry
  | some sel =>
    let filtered := sel.filter (fun a => registry.contains a)
    if filtered.isEmpty && !sel.isEmpty then registry else filtered

/-- Embedding of build_agent_workflow (src/graph/builder.py lines
12-58), parametric in the registry key list. -/
def build_agent_workflow (registry : List String) (selected : Option (List String)) :
    StateGraphM :=
  let w := addNode StateGraphM.empty "start_node"
  let agents := agentsToUse registry selected
  let w := agents.foldl (fun w k => addEdge (addNode w (agentNodeName k)) "start_node" (agentNodeName k)) w
  let w := addNode (addNode w "risk_management_agent") "portfolio_manager"
  let w := agents.foldl (fun w k => addEdge w (agentNodeName k) "risk_management_agent") w
  let w := if agents.isEmpty then addEdge w "start_node" "risk_management_agent" else w
  let w := addEdge w "risk_management_agent" "portfolio_manager"
  let w := addEdge w "portfolio_manager" ENDNode
  { w with entryPoint := some "start_node" }

def outEdges (g : StateGraphM) (n : String) : List (String × String) :=
  g.edges.filter (fun e => e.1 = n)

def inEdges (g : StateGraphM) (n : String) : List (String × String) :=
  g.edges.filter (fun e => e.2 = n)

/-- Edge relation of the built graph. -/
def EdgeRel (g : StateGraphM) (a b : String) : Prop := (a, b) ∈ g.edges

/-- A graph is acyclic when no node has a nonempty path back to itself. -/
def Acyclic (g : StateGraphM) : Prop :=
  ∀ n : String, ¬ Relation.TransGen (EdgeRel g) n n

/-! ## src/agents/fundamentals.py

Numeric metric fields are modelled as rationals: the agent only
compares and linearly combines them, so the ordered-field reasoning is
exact.  Field names whose Python spelling ends in a suffix reserved by
the surrounding tooling carry a trailing underscore.  The emitted
per-ticker entry keeps the signal and confidence; the reasoning payload
is opaque presentational detail and is not modelled. -/

structure FinMetrics where
  return_on_equity : Option ℚ
  net_margin : Option ℚ
  operating_margin : Option ℚ
  revenue_growth : Option ℚ
  earnings_growth : Option ℚ
  book_value_growth : Option ℚ
  current_ratio_ : Option ℚ
  debt_to_equity : Option ℚ
  free_cash_flow_per_share : Option ℚ
  earnings_per_share : Option ℚ
  price_to_earnings_ratio_ : Option ℚ
  price_to_book_ratio_ : Option ℚ
  price_to_sales_ratio_ : Option ℚ

structure Dividend where
  dividend_type : String
  cash_amount : ℚ
  ex_dividend_date : Option String

structure PriceRec where
  close : ℚ

structure LineItemRec where
  earnings_per_share : Option ℚ

/-- External data provider collaborator (src/tools/api) as the agent
consumes it; fixed keyword arguments (period, limit) are folded into
the collaborator. -/
structure DataProvider where
  get_financial_metrics : String → String → List FinMetrics
  get_dividend_history : String → List Dividend
  get_prices : String → String → String → List PriceRec
  search_line_items : String → String → List LineItemRec

structure SignalEntry where
  signal : String
  confidence : ℚ
deriving DecidableEq

/-- Count of pairs whose metric is not None and exceeds its threshold,
as in the sum of booleans over the thresholds list. -/
def optGtCount (pairs : List (Option ℚ × ℚ)) : Nat :=
  (pairs.filter (fun p =>
    match p.1 with
    | some v => decide (v > p.2)
    | none => false)).length

/-- Python truthiness of an optional float: None and 0.0 are falsy. -/
def pyTruthy (o : Option ℚ) : Bool :=
  match o with
  | some v => decide (v ≠ 0)
  | none => false

def truthyGt (o : Option ℚ) (t : ℚ) : Bool :=
  match o with
  | some v => decide (v ≠ 0) && decide (v > t)
  | none => false

def truthyLt (o : Option ℚ) (t : ℚ) : Bool :=
  match o with
  | some v => decide (v ≠ 0) && decide (v < t)
  | none => false

/-- Guard of the dividend grouping loop: a cash dividend with positive
amount and a truthy ex-dividend date. -/
def divEligible (d : Dividend) : Bool :=
  d.dividend_type = "CD" && decide (d.cash_amount > 0) &&
    (match d.ex_dividend_date with
     | some s => !s.isEmpty
     | none => false)

def alookup {α : Type} (l : List (String × α)) (k : String) : Option α :=
  (l.find? (fun p => p.1 = k)).map (fun p => p.2)

/-- Accumulate a cash amount into the per-year totals dict, preserving
insertion order of years. -/
def addYearAmount (acc : List (String × ℚ)) (y : String) (q : ℚ) : List (String × ℚ) :=
  match acc with
  | [] => [(y, q)]
  | (y2, a) :: rest =>
    if y2 = y then (y2, a + q) :: rest else (y2, a) :: addYearAmount rest y q

def insertIfAbsent (x : String) (l : List String) : List String :=
  if x ∈ l then l else l ++ [x]

/-- Grouping loop over the dividend history: the set of years with any
cash dividend, and the per-year cash totals in insertion order. -/
def collectDividends (history : List Dividend) : List String × List (String × ℚ) :=
  history.foldl (fun acc d =>
    if divEligible d then
      let year := ((d.ex_dividend_date.getD "").take 4)
      (insertIfAbsent year acc.1, addYearAmount acc.2 year d.cash_amount)
    else acc) ([], [])

/-- Insertion into a descending-sorted list, for sorted(keys,
reverse=True) on the year strings. -/
def insertDescStr (x : String) : List String → List String
  | [] => [x]
  | y :: ys => if y < x then x :: y :: ys else y :: insertDescStr x ys

def sortedDescStr (l : List String) : List String := l.foldr insertDescStr []

/-- First year in the descending list strictly before the current year
string — the most recent full year with dividends. -/
def firstPastYear (current : String) : List String → Option String
  | [] => none
  | y :: ys => if y < current then some y else firstPastYear current ys

/-- String of the year of strptime(end_date, %Y-%m-%d), which for the
dates the agent receives equals the first four characters without
leading zeros. -/
def currentYearStr (end_date : String) : String :=
  toString ((end_date.take 4).toNat?.getD 0)

/-- Most recent full-year dividend total: the latest year strictly
before the current year, falling back on the newest year present; 0.0
when no year has cash dividends. -/
def latestFullYearTotal (cur : String) (byYear : List (String × ℚ)) : ℚ :=
  if byYear.isEmpty then 0
  else
    let sorted := sortedDescStr (byYear.map (fun p => p.1))
    match firstPastYear cur sorted with
    | some y => (alookup byYear y).getD 0
    | none =>
      match sorted with
      | y :: _ => (alookup byYear y).getD 0
      | [] => 0

/-- Model of Python round(q, 2): round to the nearest multiple of 1/100
with ties to even, as CPython does on these exactly representable
inputs. -/
def pyRound2 (q : ℚ) : ℚ :=
  let scaled := q * 100
  let f : Int := Rat.floor scaled
  let frac := scaled - (f : ℚ)
  let n : Int :=
    if frac < 1/2 then f
    else if 1/2 < frac then f + 1
    else if f % 2 = 0 then f else f + 1
  (n : ℚ) / 100

/-- Per-ticker scoring body of fundamentals_agent (src/agents/
fundamentals.py lines 37-210): the list of the five aspect signals, in
the order they are appended. -/
def fundamentalSignals (m : FinMetrics) (history : List Dividend) (current_price : Option ℚ)
    (latest_annual_eps : Option ℚ) (end_date : String) : List String :=
  let profitability_score := optGtCount
    [(m.return_on_equity, 3/20), (m.net_margin, 1/5), (m.operating_margin, 3/20)]
  let s1 := if profitability_score ≥ 2 then "bullish"
    else if profitability_score = 0 then "bearish" else "neutral"
  let growth_score := optGtCount
    [(m.revenue_growth, 1/10), (m.earnings_growth, 1/10), (m.book_value_growth, 1/10)]
  let s2 := if growth_score ≥ 2 then "bullish"
    else if growth_score = 0 then "bearish" else "neutral"
  let health_score :=
    (if truthyGt m.current_ratio_ (3/2) then 1 else 0) +
    (if truthyLt m.debt_to_equity (1/2) then 1 else 0) +
    (if pyTruthy m.free_cash_flow_per_share && pyTruthy m.earnings_per_share &&
        decide (m.free_cash_flow_per_share.getD 0 > m.earnings_per_share.getD 0 * (4/5))
     then 1 else 0)
  let s3 := if health_score ≥ 2 then "bullish"
    else if health_score = 0 then "bearish" else "neutral"
  let price_ratio_score := optGtCount
    [(m.price_to_earnings_ratio_, 25), (m.price_to_book_ratio_, 3), (m.price_to_sales_ratio_, 5)]
  let s4 := if price_ratio_score ≥ 2 then "bearish"
    else if price_ratio_score = 0 then "bullish" else "neutral"
  let collected := collectDividends history
  let years_with_dividends := collected.1
  let dividends_by_year := collected.2
  let total := latestFullYearTotal (currentYearStr end_date) dividends_by_year
  let dividend_score :=
    (if pyTruthy current_price && decide (total > 0) then
       (if total / current_price.getD 0 > 3/100 then 1 else 0)
     else 0) +
    (if pyTruthy latest_annual_eps && decide (latest_annual_eps.getD 0 > 0) &&
        decide (total > 0) then
       (if 1/4 ≤ total / latest_annual_eps.getD 0 ∧ total / latest_annual_eps.getD 0 ≤ 3/4
        then 1 else 0)
     else 0) +
    (if years_with_dividends.length ≥ 3 then 1 else 0)
  let s5 := if dividend_score ≥ 2 then "bullish"
    else if dividend_score = 0 && decide (total = 0) then "bearish" else "neutral"
  [s1, s2, s3, s4, s5]

/-- Tail of the per-ticker scoring body (src/agents/fundamentals.py
lines 211-223): majority overall signal over the five aspect signals
and the rounded confidence. -/
def analyzeTicker (m : FinMetrics) (history : List Dividend) (current_price : Option ℚ)
    (latest_annual_eps : Option ℚ) (end_date : String) : SignalEntry :=
  let signals := fundamentalSignals m history current_price latest_annual_eps end_date
  let bullish_signals := signals.count "bullish"
  let bearish_signals := signals.count "bearish"
  let overall_signal := if bullish_signals > bearish_signals then "bullish"
    else if bearish_signals > bullish_signals then "bearish" else "neutral"
  let total_signals := signals.length
  let confidence := pyRound2 ((max bullish_signals bearish_signals : ℚ) / total_signals) * 100
  { signal := overall_signal, confidence := confidence }

/-- Data-fetch half of the per-ticker loop body, feeding analyzeTicker. -/
def tickerAnalysis (api : DataProvider) (end_date ticker : String) (metrics : FinMetrics) :
    SignalEntry :=
  let dividend_history := api.get_dividend_history ticker
  let current_price_data := api.get_prices ticker end_date end_date
  let current_price :=
    match current_price_data with
    | p :: _ => some p.close
    | [] => none
  let annual_eps_items := api.search_line_items ticker end_date
  let latest_annual_eps :=
    match annual_eps_items with
    | i :: _ => i.earnings_per_share
    | [] => none
  analyzeTicker metrics dividend_history current_price latest_annual_eps end_date

/-- Python dict assignment on the accumulated analysis mapping:
overwrite in place or append. -/
def assocSet {α : Type} (l : List (String × α)) (k : String) (v : α) : List (String × α) :=
  match l with
  | [] => [(k, v)]
  | (k2, v2) :: rest =>
    if k2 = k then (k2, v) :: rest else (k2, v2) :: assocSet rest k v

/-- Embedding of the fundamentals_agent ticker loop (src/agents/
fundamentals.py lines 13-223): tickers with no financial metrics are
skipped, every other ticker gets the entry computed from the most
recent metrics. -/
def fundamentals_agent (api : DataProvider) (tickers : List String) (end_date : String) :
    List (String × SignalEntry) :=
  tickers.foldl (fun acc ticker =>
    match api.get_financial_metrics ticker end_date with
    | [] => acc
    | metrics :: _ => assocSet acc ticker (tickerAnalysis api end_date ticker metrics)) []

def signalFor (signals : List (String × SignalEntry)) (t : String) : Option SignalEntry :=
  (signals.find? (fun p => p.1 = t)).map (fun p => p.2)

/-- Topological rank of the nodes of a built workflow graph relative to
its list of analysis node names: every edge strictly increases the
rank, which rules out cycles. -/
def nodeRank (analysisNodes : List String) (n : String) : Nat :=
  if n = "start_node" then 0
  else if n ∈ analysisNodes then 1
  else if n = "risk_management_agent" then 2
  else if n = "portfolio_manager" then 3
  else 4

/-- Financial metrics record with every optional field absent, for
concrete instantiations. -/
def emptyMetrics : FinMetrics :=
  ⟨none, none, none, none, none, none, none, none, none, none, none, none, none⟩

/-- Concrete data provider for the end-to-end scenario: metrics exist
for AAA only, nothing else is available. -/
def scenarioApi : DataProvider where
  get_financial_metrics := fun t _ => if t = "AAA" then [emptyMetrics] else []
  get_dividend_history := fun _ => []
  get_prices := fun _ _ _ => []
  search_line_items := fun _ _ => []

/-! ## Theorems -/

/-- C10, counterexample: parse_json_response does not return only
dictionaries — the valid JSON string 3 parses to the number 3, which
parse_json_response returns as is. -/
theorem C10_counterexample :
    parse_json_response (PyInput.str "3") = some (Json.num 3)
    ∧ (Json.num 3).isObj = false :=
  ⟨rfl, rfl⟩

/-- C10, amended: parse_json_response is total and never raises, but
returns whatever JSON value parses (not only dictionaries): non-string
input and non-JSON strings yield None, and run_hedge_fund's decisions
field is None whenever the final message content is missing, invalid,
or parses to a non-object JSON value. -/
theorem C10_parse_total (s : String) (c : PyInput) (j : Json) :
    parse_json_response PyInput.nonStr = none
    ∧ (jsonLoads s = none → parse_json_response (PyInput.str s) = none)
    ∧ (parse_json_response c = none → runHedgeFundDecisions c = none)
    ∧ (parse_json_response c = some j → j.isObj = false → runHedgeFundDecisions c = none) := by
  refine ⟨rfl, fun h => h, fun h => ?_, fun hp ho => ?_⟩
  · unfold runHedgeFundDecisions
    rw [h]
  · unfold runHedgeFundDecisions
    rw [hp]
    cases j with
    | obj kvs => simp [Json.isObj] at ho
    | _ => rfl

/-- Witness for C10_parse_total at concrete inputs: a non-JSON string
parses to None, and the JSON number 3 gives decisions None. -/
theorem C10_parse_total_witness :
    (jsonLoads "not json" = none
      ∧ parse_json_response (PyInput.str "not json") = none)
    ∧ (parse_json_response (PyInput.str "3") = some (Json.num 3)
      ∧ (Json.num 3).isObj = false
      ∧ runHedgeFundDecisions (PyInput.str "3") = none) :=
  ⟨⟨rfl, (C10_parse_total "not json" (PyInput.str "not json") Json.null).2.1 rfl⟩,
   ⟨rfl, rfl,
    (C10_parse_total "" (PyInput.str "3") (Json.num 3)).2.2.2 rfl rfl⟩⟩

/-- Helper for C6: the source's nested-fallback extraction body equals
the spec's ordered chain of parser strategies. -/
theorem extractCore_eq_specCore (c : Chars) : extractCore c = specCore c := by
  unfold extractCore specCore fencedBlockContents
  dsimp only
  cases h1 : findSub jsonFence c with
  | none => dsimp only
  | some i =>
    dsimp only
    cases h2 : findSub tripleTick (c.drop (i + 7)) with
    | none => dsimp only
    | some j =>
      dsimp only
      cases h3 : jsonLoads (String.mk (pyStrip ((c.drop (i + 7)).take j))) with
      | none => dsimp only [Option.orElse]
      | some v => dsimp only [Option.orElse]

/-- Helper for C6: when the ordered chain returns None, both parser
strategies failed. -/
theorem specCore_none (c : Chars) (h : specCore c = none) :
    jsonLoads (String.mk c) = none
    ∧ ∀ b, fencedBlockContents c = some b → jsonLoads (String.mk b) = none := by
  revert h
  unfold specCore
  cases hfb : fencedBlockContents c with
  | none =>
    intro h
    replace h : jsonLoads (String.mk c) = none := h
    exact ⟨h, fun b hb => nomatch hb⟩
  | some block =>
    intro h
    replace h : (jsonLoads (String.mk block)).orElse (fun _ => jsonLoads (String.mk c)) = none := h
    cases hl : jsonLoads (String.mk block) with
    | some v =>
      rw [hl] at h
      simp only [Option.orElse] at h
      cases h
    | none =>
      rw [hl] at h
      simp only [Option.orElse] at h
      exact ⟨h, fun b hb => by cases hb; exact hl⟩

/-- C6: extract_json_from_response strips the think markup and then
tries the parsers in the spec's fixed order — the fenced json block
contents first, the entire remaining text on failure — returns None
only when both strategies fail, and parses the concrete think-plus-
fenced-block response to the expected mapping. -/
theorem C6_extract_ordered :
    (∀ s : String, extract_json_from_response s = extractSpecOrdered s)
    ∧ (∀ s : String, extract_json_from_response s = none →
        jsonLoads (String.mk (pyStrip (removeThink s.toList))) = none
        ∧ ∀ b, fencedBlockContents (pyStrip (removeThink s.toList)) = some b →
            jsonLoads (String.mk b) = none)
    ∧ extract_json_from_response
        "<think>ignored</think>```json\n\x7b\"signal\":\"bullish\"\x7d\n```"
      = some (Json.obj [("signal", Json.str "bullish")]) := by
  refine ⟨fun s => extractCore_eq_specCore _, fun s hnone => ?_, rfl⟩
  unfold extract_json_from_response at hnone
  rw [extractCore_eq_specCore] at hnone
  exact specCore_none _ hnone

/-- Witness for C6_extract_ordered: a plain non-JSON string makes both
strategies fail and extraction return None. -/
theorem C6_extract_ordered_witness :
    extract_json_from_response "xyz" = extractSpecOrdered "xyz"
    ∧ extract_json_from_response "xyz" = none
    ∧ jsonLoads (String.mk (pyStrip (removeThink "xyz".toList))) = none :=
  ⟨C6_extract_ordered.1 "xyz", rfl, (C6_extract_ordered.2.1 "xyz" rfl).1⟩

/-- Cache helper: a successful key-set computation collects exactly the
key values of the existing records in order. -/
theorem existingKeyVals_map_some (keyField : String) :
    ∀ (ex : List CRec) (keys : List Int), existingKeyVals keyField ex = .ok keys →
      keys.map some = ex.map (fun r => getItem r keyField) := by
  intro ex
  induction ex with
  | nil => intro keys h; cases h; rfl
  | cons r rs ih =>
    intro keys h
    unfold existingKeyVals at h
    cases hg : getItem r keyField with
    | none => rw [hg] at h; cases h
    | some v =>
      rw [hg] at h
      cases hrec : existingKeyVals keyField rs with
      | error e => rw [hrec] at h; cases h
      | ok ks => rw [hrec] at h; cases h; simp [ih ks hrec, hg]

/-- Cache helper: when every existing record has the key field, the
key-set computation succeeds. -/
theorem existingKeyVals_ok_of_hasKey (keyField : String) :
    ∀ ex : List CRec, (∀ r ∈ ex, recHasKey keyField r = true) →
      ∃ keys, existingKeyVals keyField ex = .ok keys := by
  intro ex
  induction ex with
  | nil => intro _; exact ⟨[], rfl⟩
  | cons r rs ih =>
    intro h
    have hr := h r (List.mem_cons_self r rs)
    unfold recHasKey at hr
    obtain ⟨v, hv⟩ := Option.isSome_iff_exists.mp hr
    obtain ⟨ks, hks⟩ := ih (fun r2 h2 => h r2 (List.mem_cons_of_mem r h2))
    exact ⟨v :: ks, by unfold existingKeyVals; rw [hv, hks]⟩

/-- Cache helper: a record missing the key field makes the key-set
computation raise. -/
theorem existingKeyVals_error (keyField : String) :
    ∀ ex : List CRec, (∃ r ∈ ex, recHasKey keyField r = false) →
      existingKeyVals keyField ex = .error () := by
  intro ex
  induction ex with
  | nil => intro ⟨r, hr, _⟩; cases hr
  | cons r rs ih =>
    intro ⟨r0, hr0, hmiss⟩
    unfold existingKeyVals
    cases hg : getItem r keyField with
    | none => rfl
    | some v =>
      have : r0 ∈ rs := by
        cases List.mem_cons.mp hr0 with
        | inl he =>
          subst he
          unfold recHasKey at hmiss
          rw [hg] at hmiss
          cases hmiss
        | inr h2 => exact h2
      rw [ih ⟨r0, this, hmiss⟩]

/-- Cache helper: the kept new records form a sublist of the new data. -/
theorem filterNewRecords_sublist (keys : List Int) (keyField : String) :
    ∀ (d kept : List CRec), filterNewRecords keys keyField d = .ok kept →
      kept.Sublist d := by
  intro d
  induction d with
  | nil => intro kept h; cases h; exact List.Sublist.refl []
  | cons r rs ih =>
    intro kept h
    unfold filterNewRecords at h
    cases hg : getItem r keyField with
    | none => rw [hg] at h; cases h
    | some v =>
      rw [hg] at h
      cases hrec : filterNewRecords keys keyField rs with
      | error e => rw [hrec] at h; cases h
      | ok rest =>
        rw [hrec] at h
        cases h
        by_cases hv : v ∈ keys
        · simpa [hv] using (ih rest hrec).cons r
        · simpa [hv] using (ih rest hrec).cons₂ r

/-- Cache helper: when every new record has the key field, the filter
computation succeeds. -/
theorem filterNewRecords_ok_of_hasKey (keys : List Int) (keyField : String) :
    ∀ d : List CRec, (∀ r ∈ d, recHasKey keyField r = true) →
      ∃ kept, filterNewRecords keys keyField d = .ok kept := by
  intro d
  induction d with
  | nil => intro _; exact ⟨[], rfl⟩
  | cons r rs ih =>
    intro h
    have hr := h r (List.mem_cons_self r rs)
    unfold recHasKey at hr
    obtain ⟨v, hv⟩ := Option.isSome_iff_exists.mp hr
    obtain ⟨kept, hkept⟩ := ih (fun r2 h2 => h r2 (List.mem_cons_of_mem r h2))
    refine ⟨if v ∈ keys then kept else r :: kept, ?_⟩
    unfold filterNewRecords
    rw [hv, hkept]

/-- Cache helper: a new record missing the key field makes the filter
computation raise. -/
theorem filterNewRecords_error (keys : List Int) (keyField : String) :
    ∀ d : List CRec, (∃ r ∈ d, recHasKey keyField r = false) →
      filterNewRecords keys keyField d = .error () := by
  intro d
  induction d with
  | nil => intro ⟨r, hr, _⟩; cases hr
  | cons r rs ih =>
    intro ⟨r0, hr0, hmiss⟩
    unfold filterNewRecords
    cases hg : getItem r keyField with
    | none => rfl
    | some v =>
      have : r0 ∈ rs := by
        cases List.mem_cons.mp hr0 with
        | inl he =>
          subst he
          unfold recHasKey at hmiss
          rw [hg] at hmiss
          cases hmiss
        | inr h2 => exact h2
      rw [ih ⟨r0, this, hmiss⟩]

/-- Cache helper: every kept record's key value is absent from the
existing key set. -/
theorem filterNewRecords_kept_key (keys : List Int) (keyField : String) :
    ∀ (d kept : List CRec), filterNewRecords keys keyField d = .ok kept →
      ∀ r ∈ kept, ∃ v, getItem r keyField = some v ∧ v ∉ keys := by
  intro d
  induction d with
  | nil => intro kept h; cases h; intro r hr; cases hr
  | cons r rs ih =>
    intro kept h
    unfold filterNewRecords at h
    cases hg : getItem r keyField with
    | none => rw [hg] at h; cases h
    | some v =>
      rw [hg] at h
      cases hrec : filterNewRecords keys keyField rs with
      | error e => rw [hrec] at h; cases h
      | ok rest =>
        rw [hrec] at h
        cases h
        by_cases hv : v ∈ keys
        · simpa [hv] using ih rest hrec
        · intro r2 hr2
          simp only [hv, if_false] at hr2
          cases List.mem_cons.mp hr2 with
          | inl he => exact he ▸ ⟨v, hg, hv⟩
          | inr h2 => exact ih rest hrec r2 h2

/-- Cache helper: every new record's key value is either already among
the existing keys or its record was kept. -/
theorem filterNewRecords_covers (keys : List Int) (keyField : String) :
    ∀ (d kept : List CRec), filterNewRecords keys keyField d = .ok kept →
      ∀ r ∈ d, ∀ v, getItem r keyField = some v → v ∈ keys ∨ r ∈ kept := by
  intro d
  induction d with
  | nil => intro kept h r hr; cases hr
  | cons r rs ih =>
    intro kept h
    unfold filterNewRecords at h
    cases hg : getItem r keyField with
    | none => rw [hg] at h; cases h
    | some v0 =>
      rw [hg] at h
      cases hrec : filterNewRecords keys keyField rs with
      | error e => rw [hrec] at h; cases h
      | ok rest =>
        rw [hrec] at h
        cases h
        intro r2 hr2 v hv
        cases List.mem_cons.mp hr2 with
        | inl he =>
          subst he
          rw [hg] at hv
          cases hv
          by_cases hvk : v0 ∈ keys
          · exact Or.inl hvk
          · exact Or.inr (by simp [hvk])
        | inr h2 =>
          cases ih rest hrec r2 h2 v hv with
          | inl hk => exact Or.inl hk
          | inr hkept =>
            by_cases hvk : v0 ∈ keys <;> simp [hvk, hkept]

/-- Cache helper: when every new record's key value is already present,
nothing is kept. -/
theorem filterNewRecords_all_present (keys : List Int) (keyField : String) :
    ∀ d : List CRec, (∀ r ∈ d, ∃ v, getItem r keyField = some v ∧ v ∈ keys) →
      filterNewRecords keys keyField d = .ok [] := by
  intro d
  induction d with
  | nil => intro _; rfl
  | cons r rs ih =>
    intro h
    obtain ⟨v, hv, hvk⟩ := h r (List.mem_cons_self r rs)
    unfold filterNewRecords
    rw [hv, ih (fun r2 h2 => h r2 (List.mem_cons_of_mem r h2))]
    simp [hvk]

/-- Cache helper: merging data whose key values are all already covered
by a stored list (whose records all carry the key field) keeps the
stored list unchanged. -/
theorem mergeData_absorb (keyField : String) (base d : List CRec)
    (hbase : ∀ r ∈ base, recHasKey keyField r = true)
    (hcov : ∀ r ∈ d, ∃ v, getItem r keyField = some v
        ∧ ∃ rb ∈ base, getItem rb keyField = some v) :
    mergeData (some base) d keyField = .ok base := by
  unfold mergeData
  by_cases hb : base.isEmpty
  · have hbase_nil : base = [] := List.isEmpty_iff.mp hb
    have hd_nil : d = [] := by
      cases d with
      | nil => rfl
      | cons r rs =>
        obtain ⟨v, _, rb, hrb, _⟩ := hcov r (List.mem_cons_self r rs)
        rw [hbase_nil] at hrb
        cases hrb
    rw [hd_nil, hbase_nil]
    rfl
  · obtain ⟨keys, hkeys⟩ := existingKeyVals_ok_of_hasKey keyField base hbase
    have hmap := existingKeyVals_map_some keyField base keys hkeys
    have hfil : filterNewRecords keys keyField d = .ok [] := by
      apply filterNewRecords_all_present
      intro r hr
      obtain ⟨v, hv, rb, hrb, hrbv⟩ := hcov r hr
      refine ⟨v, hv, ?_⟩
      have : some v ∈ keys.map some := by
        rw [hmap]
        exact List.mem_map.mpr ⟨rb, hrb, hrbv⟩
      simpa using this
    simp [hb, hkeys, hfil]

/-- Cache helper: re-merging the same well-keyed data into the result
of a merge adds nothing. -/
theorem mergeData_self (keyField : String) (existing : Option (List CRec))
    (d merged : List CRec) (hd : ∀ r ∈ d, recHasKey keyField r = true)
    (h : mergeData existing d keyField = .ok merged) :
    mergeData (some merged) d keyField = .ok merged := by
  have habs : ∀ base : List CRec,
      (∀ r ∈ base, recHasKey keyField r = true) →
      (∀ r ∈ d, ∃ v, getItem r keyField = some v
          ∧ ∃ rb ∈ base, getItem rb keyField = some v) →
      mergeData (some base) d keyField = .ok base :=
    fun base => mergeData_absorb keyField base d
  have hdcov : ∀ r ∈ d, ∃ v, getItem r keyField = some v
      ∧ ∃ rb ∈ d, getItem rb keyField = some v := by
    intro r hr
    obtain ⟨v, hv⟩ := Option.isSome_iff_exists.mp (hd r hr)
    exact ⟨v, hv, r, hr, hv⟩
  cases existing with
  | none =>
    cases h
    exact habs d hd hdcov
  | some ex =>
    simp only [mergeData] at h
    by_cases hb : ex.isEmpty
    · rw [if_pos hb] at h
      cases h
      exact habs d hd hdcov
    · rw [if_neg hb] at h
      cases hkeys : existingKeyVals keyField ex with
      | error e => rw [hkeys] at h; cases h
      | ok keys =>
        rw [hkeys] at h
        replace h : (match filterNewRecords keys keyField d with
          | Except.error e => (Except.error e : Except Unit (List CRec))
          | Except.ok fresh => Except.ok (ex ++ fresh)) = Except.ok merged := h
        cases hfil : filterNewRecords keys keyField d with
        | error e => rw [hfil] at h; cases h
        | ok fresh =>
          rw [hfil] at h
          cases h
          have hmap := existingKeyVals_map_some keyField ex keys hkeys
          have hexfield : ∀ r ∈ ex, recHasKey keyField r = true := by
            intro r hr
            have : getItem r keyField ∈ keys.map some := by
              rw [hmap]
              exact List.mem_map.mpr ⟨r, hr, rfl⟩
            obtain ⟨v, _, hv⟩ := List.mem_map.mp this
            unfold recHasKey
            rw [← hv]
            rfl
          have hfreshfield : ∀ r ∈ fresh, recHasKey keyField r = true := by
            intro r hr
            obtain ⟨v, hv, _⟩ := filterNewRecords_kept_key keys keyField d fresh hfil r hr
            unfold recHasKey
            rw [hv]
            rfl
          apply habs


          · intro r hr
            cases List.mem_append.mp hr with
            | inl hx => exact hexfield r hx
            | inr hf => exact hfreshfield r hf
          · intro r hr
            obtain ⟨v, hv⟩ := Option.isSome_iff_exists.mp (hd r hr)
            refine ⟨v, hv, ?_⟩
            cases filterNewRecords_covers keys keyField d fresh hfil r hr v hv with
            | inl hk =>
              have : some v ∈ ex.map (fun r2 => getItem r2 keyField) := by
                rw [← hmap]
                exact List.mem_map.mpr ⟨v, hk, rfl⟩
              obtain ⟨rb, hrb, hrbv⟩ := List.mem_map.mp this
              exact ⟨rb, List.mem_append.mpr (Or.inl hrb), hrbv⟩
            | inr hkept =>
              exact ⟨r, List.mem_append.mpr (Or.inr hkept), hv⟩

/-- Cache helper: a second setKind with the same well-keyed data leaves
the map unchanged. -/
theorem setKind_idem (keyField : String) (m : KindMap) (t : String) (d : List CRec)
    (hd : ∀ r ∈ d, recHasKey keyField r = true) (m1 : KindMap)
    (h : setKind m keyField t d = .ok m1) :
    setKind m1 keyField t d = .ok m1 := by
  unfold setKind at h ⊢
  cases hm : mergeData (m t) d keyField with
  | error e => rw [hm] at h; cases h
  | ok merged =>
    rw [hm] at h
    cases h
    rw [Function.update_same]
    rw [mergeData_self keyField (m t) d merged hd hm]
    show Except.ok (Function.update (Function.update m t (some merged)) t (some merged))
      = Except.ok (Function.update m t (some merged))
    rw [Function.update_idem]

/-- Cache helper: one setKind with field-complete, key-distinct data
preserves the stored-list invariant (field-complete records, pairwise
distinct key values) across the whole map. -/
theorem setKind_preserves_good (keyField t : String) (d : List CRec) (m m' : KindMap)
    (hd1 : ∀ r ∈ d, recHasKey keyField r = true)
    (hd2 : (d.map (fun r => getItem r keyField)).Nodup)
    (hm : ∀ t' l, m t' = some l →
        (∀ r ∈ l, recHasKey keyField r = true)
        ∧ (l.map (fun r => getItem r keyField)).Nodup)
    (h : setKind m keyField t d = .ok m') :
    ∀ t' l, m' t' = some l →
        (∀ r ∈ l, recHasKey keyField r = true)
        ∧ (l.map (fun r => getItem r keyField)).Nodup := by
  unfold setKind at h
  cases hmg : mergeData (m t) d keyField with
  | error e => rw [hmg] at h; cases h
  | ok merged =>
    rw [hmg] at h
    cases h
    intro t' l hl
    by_cases ht : t' = t
    · subst ht
      rw [Function.update_same] at hl
      cases hl
      cases hmt : m t' with
      | none => rw [hmt] at hmg; cases hmg; exact ⟨hd1, hd2⟩
      | some ex =>
        rw [hmt] at hmg
        simp only [mergeData] at hmg
        by_cases hb : ex.isEmpty
        · rw [if_pos hb] at hmg; cases hmg; exact ⟨hd1, hd2⟩
        · rw [if_neg hb] at hmg
          cases hkeys : existingKeyVals keyField ex with
          | error e => rw [hkeys] at hmg; cases hmg
          | ok keys =>
            rw [hkeys] at hmg
            replace hmg : (match filterNewRecords keys keyField d with
              | Except.error e => (Except.error e : Except Unit (List CRec))
              | Except.ok fresh => Except.ok (ex ++ fresh)) = Except.ok merged := hmg
            cases hfil : filterNewRecords keys keyField d with
            | error e => rw [hfil] at hmg; cases hmg
            | ok fresh =>
              rw [hfil] at hmg
              cases hmg
              have hex := hm t' ex hmt
              have hmap := existingKeyVals_map_some keyField ex keys hkeys
              constructor
              · intro r hr
                cases List.mem_append.mp hr with
                | inl hx => exact hex.1 r hx
                | inr hf =>
                  obtain ⟨v, hv, _⟩ :=
                    filterNewRecords_kept_key keys keyField d fresh hfil r hf
                  unfold recHasKey
                  rw [hv]
                  rfl
              · rw [List.map_append]
                refine List.Nodup.append hex.2
                  (((filterNewRecords_sublist keys keyField d fresh hfil).map _).nodup hd2)
                  ?_
                intro x hx1 hx2
                rw [← hmap] at hx1
                obtain ⟨v, hvk, hvx⟩ := List.mem_map.mp hx1
                obtain ⟨r2, hr2, hr2x⟩ := List.mem_map.mp hx2
                obtain ⟨w, hw, hwk⟩ :=
                  filterNewRecords_kept_key keys keyField d fresh hfil r2 hr2
                rw [← hvx, hw] at hr2x
                cases hr2x
                exact hwk hvk
    · rw [Function.update_noteq ht] at hl
      exact hm t' l hl

/-- Cache helper: a sequence of setKind operations with field-complete,
key-distinct batches keeps every stored list's key values pairwise
distinct. -/
theorem applySets_good (keyField : String) :
    ∀ (ops : List (String × List CRec)) (m0 m : KindMap),
      (∀ p ∈ ops, (∀ r ∈ p.2, recHasKey keyField r = true)
          ∧ (p.2.map (fun r => getItem r keyField)).Nodup) →
      (∀ t l, m0 t = some l →
          (∀ r ∈ l, recHasKey keyField r = true)
          ∧ (l.map (fun r => getItem r keyField)).Nodup) →
      applySets keyField m0 ops = .ok m →
      ∀ t l, m t = some l →
          (∀ r ∈ l, recHasKey keyField r = true)
          ∧ (l.map (fun r => getItem r keyField)).Nodup := by
  intro ops
  induction ops with
  | nil =>
    intro m0 m _ hm0 happ
    cases happ
    exact hm0
  | cons op rest ih =>
    intro m0 m hops hm0 happ
    obtain ⟨t0, d0⟩ := op
    unfold applySets at happ
    cases hstep : setKind m0 keyField t0 d0 with
    | error e => rw [hstep] at happ; cases happ
    | ok m2 =>
      rw [hstep] at happ
      have hop := hops (t0, d0) (List.mem_cons_self _ _)
      exact ih m2 m (fun p hp => hops p (List.mem_cons_of_mem _ hp))
        (setKind_preserves_good keyField t0 d0 m0 m2 hop.1 hop.2 hm0 hstep) happ

/-- Cache helper: a successful setKind on an already-present entry
appends a sublist of the new data after the existing records. -/
theorem setKind_append_order (keyField : String) (m m' : KindMap) (t : String)
    (d l0 : List CRec) (h : setKind m keyField t d = .ok m') (hl0 : m t = some l0) :
    ∃ fresh, m' t = some (l0 ++ fresh) ∧ fresh.Sublist d := by
  unfold setKind at h
  rw [hl0] at h
  simp only [mergeData] at h
  by_cases hb : l0.isEmpty
  · rw [if_pos hb] at h
    cases h
    rw [List.isEmpty_iff.mp hb]
    exact ⟨d, by rw [Function.update_same]; rfl, List.Sublist.refl d⟩
  · rw [if_neg hb] at h
    cases hkeys : existingKeyVals keyField l0 with
    | error e => rw [hkeys] at h; cases h
    | ok keys =>
      rw [hkeys] at h
      replace h : (match (match filterNewRecords keys keyField d with
          | Except.error e => (Except.error e : Except Unit (List CRec))
          | Except.ok fresh => Except.ok (l0 ++ fresh)) with
        | Except.error e => (Except.error e : Except Unit KindMap)
        | Except.ok merged => Except.ok (Function.update m t (some merged)))
          = Except.ok m' := h
      cases hfil : filterNewRecords keys keyField d with
      | error e => rw [hfil] at h; cases h
      | ok fresh =>
        rw [hfil] at h
        cases h
        exact ⟨fresh, by rw [Function.update_same],
          filterNewRecords_sublist keys keyField d fresh hfil⟩

/-- Helper for C1: the retry loop makes at most as many attempts as it
has remaining. -/
theorem callLlmLoop_attempts_le {T : Type} (f : Nat → Except Unit T) (onF afterL : T) :
    ∀ (r attempt : Nat), (callLlmLoop f onF afterL attempt r).1 ≤ r := by
  intro r
  induction r with
  | zero => intro attempt; simp [callLlmLoop]
  | succ n ih =>
    intro attempt
    unfold callLlmLoop
    cases f attempt with
    | ok t => simp
    | error e =>
      by_cases h : n = 0
      · subst h; simp
      · have := ih (attempt + 1)
        simp only [h, if_false]
        omega

/-- Helper for C1: with an always-failing attempt body the loop runs
all remaining attempts and returns the shared fallback value. -/
theorem callLlmLoop_all_fail {T : Type} (f : Nat → Except Unit T) (d : T)
    (hf : ∀ n, f n = .error ()) :
    ∀ (r attempt : Nat), callLlmLoop f d d attempt r = (r, d) := by
  intro r
  induction r with
  | zero => intro attempt; rfl
  | succ n ih =>
    intro attempt
    unfold callLlmLoop
    rw [hf attempt]
    by_cases h : n = 0
    · subst h; simp
    · simp [h, ih (attempt + 1)]

/-- C1: call_llm makes at most max_retries attempts; with a provider
failing on every attempt and no fallback factory, it returns the
schema-derived default after exactly max_retries attempts; and that
default populates every declared field of the schema.  Non-raising and
schema conformance are structural in the embedding: call_llm is a total
function into the schema's value type. -/
theorem C1_call_llm_bounded (fields : List (String × Ann))
    (invokeStructured : Nat → Except Unit (List (String × DefVal)))
    (invokeText : Nat → Except Unit String) (hasJsonMode : Bool)
    (validate : Json → Except Unit (List (String × DefVal)))
    (maxRetries : Nat) (defaultFactory : Option (List (String × DefVal))) :
    (call_llm invokeStructured invokeText hasJsonMode validate maxRetries defaultFactory
        (create_default_response fields)).1 ≤ maxRetries
    ∧ ((∀ n, invokeStructured n = .error ()) → (∀ n, invokeText n = .error ()) →
        call_llm invokeStructured invokeText hasJsonMode validate maxRetries none
            (create_default_response fields)
          = (maxRetries, create_default_response fields))
    ∧ (create_default_response fields).map Prod.fst = fields.map Prod.fst := by
  refine ⟨callLlmLoop_attempts_le _ _ _ maxRetries 0, fun hs ht => ?_, ?_⟩
  · have hall : ∀ n, llmAttempt invokeStructured invokeText hasJsonMode validate n
        = .error () := by
      intro n
      unfold llmAttempt
      cases hasJsonMode with
      | true => simp only [if_true]; exact hs n
      | false => simp only [Bool.false_eq_true, if_false]; rw [ht n]
    exact callLlmLoop_all_fail _ _ hall maxRetries 0
  · simp [create_default_response, List.map_map]

/-- Witness for C1_call_llm_bounded: an always-failing provider with
max_retries 3 and a one-field enumerated schema. -/
theorem C1_call_llm_bounded_witness :
    call_llm (fun _ => .error ()) (fun _ => .error ()) true (fun _ => .error ()) 3 none
        (create_default_response [("signal", Ann.literalA "bullish" ["bearish", "neutral"])])
      = (3, create_default_response [("signal", Ann.literalA "bullish" ["bearish", "neutral"])]) :=
  (C1_call_llm_bounded [("signal", Ann.literalA "bullish" ["bearish", "neutral"])]
      (fun _ => .error ()) (fun _ => .error ()) true (fun _ => .error ()) 3 none).2.1
    (fun _ => rfl) (fun _ => rfl)

/-- C2, counterexample: a single set of a record list that repeats one
uniqueness value on an empty cache stores the duplicate verbatim, so
the claimed invariant fails without a per-call distinctness premise. -/
theorem C2_counterexample :
    (Except.map (fun m => m "A")
        (applySets "time" (fun _ => none) [("A", [[("time", 1)], [("time", 1)]])]))
      = .ok (some [[("time", 1)], [("time", 1)]])
    ∧ ¬ (([[("time", (1 : Int))], [("time", 1)]].map (fun r => getItem r "time")).Nodup) :=
  ⟨rfl, by decide⟩

/-- C2, amended: provided every set call's record list carries the
uniqueness field and has pairwise distinct uniqueness values, after any
sequence of set operations no two stored records share a uniqueness
value; and every successful set on an already-present entry keeps the
pre-existing records as a prefix in order and appends the newly merged
records (a sublist of the new data) after them. -/
theorem C2_merge_invariant :
    (∀ (keyField : String) (ops : List (String × List CRec)) (m : KindMap),
      (∀ p ∈ ops, (∀ r ∈ p.2, recHasKey keyField r = true)
          ∧ (p.2.map (fun r => getItem r keyField)).Nodup) →
      applySets keyField (fun _ => none) ops = .ok m →
      ∀ t l, m t = some l → (l.map (fun r => getItem r keyField)).Nodup)
    ∧ (∀ (keyField : String) (m m' : KindMap) (t : String) (d l0 : List CRec),
      setKind m keyField t d = .ok m' → m t = some l0 →
      ∃ fresh, m' t = some (l0 ++ fresh) ∧ fresh.Sublist d) := by
  constructor
  · intro keyField ops m hops happ t l hl
    exact (applySets_good keyField ops (fun _ => none) m hops
      (fun t' l' h => nomatch h) happ t l hl).2
  · intro keyField m m' t d l0 h hl0
    exact setKind_append_order keyField m m' t d l0 h hl0

/-- Witness for C2_merge_invariant: two overlapping price batches for
one ticker leave pairwise distinct time values. -/
theorem C2_merge_invariant_witness :
    (Except.map (fun m => m "A")
        (applySets "time" (fun _ => none)
          [("A", [[("time", 1)], [("time", 2)]]), ("A", [[("time", 2)], [("time", 3)]])]))
      = .ok (some [[("time", 1)], [("time", 2)], [("time", 3)]])
    ∧ (([[("time", (1 : Int))], [("time", 2)], [("time", 3)]].map
        (fun r => getItem r "time")).Nodup) := by
  refine ⟨rfl, ?_⟩
  exact C2_merge_invariant.1 "time"
    [("A", [[("time", 1)], [("time", 2)]]), ("A", [[("time", 2)], [("time", 3)]])]
    (Function.update
      (Function.update (fun _ => none) "A" (some [[("time", 1)], [("time", 2)]]))
      "A" (some [[("time", 1)], [("time", 2)], [("time", 3)]]))
    (by decide) rfl "A" _ rfl

/-- C3: calling a cache set operation twice with an identical record
list, each record carrying the data kind's uniqueness field, leaves the
cache in the state of a single call — for the generic merge-backed set
of any data kind and for set_prices in particular. -/
theorem C3_set_idempotent :
    (∀ (keyField : String) (m : KindMap) (t : String) (d : List CRec),
      (∀ r ∈ d, recHasKey keyField r = true) →
      (match setKind m keyField t d with
       | .error e => Except.error e
       | .ok m1 => setKind m1 keyField t d) = setKind m keyField t d)
    ∧ (∀ (c : Cache) (t : String) (d : List CRec) (c1 : Cache),
      (∀ r ∈ d, recHasKey "time" r = true) →
      Cache.set_prices c t d = .ok c1 → Cache.set_prices c1 t d = .ok c1) := by
  constructor
  · intro keyField m t d hd
    cases h : setKind m keyField t d with
    | error e => rfl
    | ok m1 => exact setKind_idem keyField m t d hd m1 h
  · intro c t d c1 hd h
    unfold Cache.set_prices at h ⊢
    cases hk : setKind c.pricesCache "time" t d with
    | error e => rw [hk] at h; cases h
    | ok m1 =>
      rw [hk] at h
      cases h
      rw [show ({ c with pricesCache := m1 } : Cache).pricesCache = m1 from rfl]
      rw [setKind_idem "time" c.pricesCache t d hd m1 hk]

/-- Witness for C3_set_idempotent: a second identical set_prices call
returns the cache unchanged. -/
theorem C3_set_idempotent_witness :
    Cache.set_prices Cache.init "A" [[("time", 1)]]
      = .ok { Cache.init with
              pricesCache := Function.update (fun _ => none) "A" (some [[("time", 1)]]) }
    ∧ Cache.set_prices
        { Cache.init with
          pricesCache := Function.update (fun _ => none) "A" (some [[("time", 1)]]) }
        "A" [[("time", 1)]]
      = .ok { Cache.init with
              pricesCache := Function.update (fun _ => none) "A" (some [[("time", 1)]]) } := by
  refine ⟨rfl, ?_⟩
  exact C3_set_idempotent.2 Cache.init "A" [[("time", 1)]] _ (by decide) rfl

/-- C7, counterexample: with nothing cached for the entity, a set whose
record lacks the uniqueness field stores the record verbatim and raises
nothing, contradicting the claimed unconditional fail-fast. -/
theorem C7_counterexample :
    recHasKey "time" [("px", (5 : Int))] = false
    ∧ (setKind (fun _ => none) "time" "A" [[("px", (5 : Int))]]).isOk = true
    ∧ (Except.map (fun m => m "A") (setKind (fun _ => none) "time" "A" [[("px", (5 : Int))]]))
      = .ok (some [[("px", (5 : Int))]]) :=
  ⟨rfl, rfl, rfl⟩

/-- C7, amended: a set operation signals an error on a record missing
the uniqueness field only when a nonempty sequence is already cached
for the entity — both when an existing record lacks the field and when
a new one does — while with no (or an empty) existing sequence the
records are stored verbatim without validation. -/
theorem C7_fail_fast (m : KindMap) (keyField t : String) (d : List CRec) :
    ((m t = none ∨ m t = some []) →
      setKind m keyField t d = .ok (Function.update m t (some d)))
    ∧ (∀ ex, m t = some ex → ex ≠ [] →
        (∃ r ∈ ex, recHasKey keyField r = false) →
        setKind m keyField t d = .error ())
    ∧ (∀ ex, m t = some ex → ex ≠ [] →
        (∀ r ∈ ex, recHasKey keyField r = true) →
        (∃ r ∈ d, recHasKey keyField r = false) →
        setKind m keyField t d = .error ()) := by
  refine ⟨fun h0 => ?_, fun ex hex hne hmiss => ?_, fun ex hex hne hall hmiss => ?_⟩
  · unfold setKind
    cases h0 with
    | inl hn => rw [hn]; rfl
    | inr he => rw [he]; rfl
  · unfold setKind
    rw [hex]
    simp only [mergeData]
    rw [if_neg (by simpa [List.isEmpty_iff] using hne)]
    rw [existingKeyVals_error keyField ex hmiss]
  · unfold setKind
    rw [hex]
    simp only [mergeData]
    rw [if_neg (by simpa [List.isEmpty_iff] using hne)]
    obtain ⟨keys, hkeys⟩ := existingKeyVals_ok_of_hasKey keyField ex hall
    rw [hkeys]
    show (match (match filterNewRecords keys keyField d with
        | Except.error e => (Except.error e : Except Unit (List CRec))
        | Except.ok fresh => Except.ok (ex ++ fresh)) with
      | Except.error e => (Except.error e : Except Unit KindMap)
      | Except.ok merged => Except.ok (Function.update m t (some merged)))
        = Except.error ()
    rw [filterNewRecords_error keys keyField d hmiss]

/-- Witness for C7_fail_fast: an empty-cache set stores a field-less
record, and the same set on a nonempty cached sequence raises. -/
theorem C7_fail_fast_witness :
    setKind (fun _ => none) "time" "A" [[("px", (5 : Int))]]
      = .ok (Function.update (fun _ => none) "A" (some [[("px", (5 : Int))]]))
    ∧ setKind (Function.update (fun _ => none) "A" (some [[("time", (1 : Int))]]))
        "time" "A" [[("px", (5 : Int))]]
      = .error () := by
  constructor
  · exact (C7_fail_fast (fun _ => none) "time" "A" [[("px", (5 : Int))]]).1 (Or.inl rfl)
  · exact (C7_fail_fast _ "time" "A" [[("px", (5 : Int))]]).2.2
      [[("time", (1 : Int))]] rfl (by decide) (by decide)
      ⟨[("px", (5 : Int))], by decide, by decide⟩

/-- C4: the asymmetric selection policy — a None selection takes every
registered key, a non-empty selection with no registered key falls back
to every registered key, and an explicitly empty selection produces
zero analysis nodes with the entry wired directly to risk management. -/
theorem C4_selection_policy (registry : List String) :
    agentsToUse registry none = registry
    ∧ (∀ sel : List String, sel ≠ [] →
        sel.filter (fun a => registry.contains a) = [] →
        agentsToUse registry (some sel) = registry)
    ∧ agentsToUse registry (some []) = []
    ∧ (build_agent_workflow registry (some [])).nodes
        = ["start_node", "risk_management_agent", "portfolio_manager"]
    ∧ ("start_node", "risk_management_agent")
        ∈ (build_agent_workflow registry (some [])).edges := by
  refine ⟨rfl, fun sel hne hfil => ?_, rfl, rfl, ?_⟩
  · show (if (((sel.filter (fun a => registry.contains a)).isEmpty && !sel.isEmpty) = true)
        then registry else sel.filter (fun a => registry.contains a)) = registry
    have hse : sel.isEmpty = false := by
      cases sel with
      | nil => exact absurd rfl hne
      | cons a l => rfl
    rw [hfil]
    simp [hse]
  · show ("start_node", "risk_management_agent")
      ∈ [("start_node", "risk_management_agent"),
         ("risk_management_agent", "portfolio_manager"),
         ("portfolio_manager", ENDNode)]
    exact List.mem_cons_self _ _

/-- Witness for C4_selection_policy: an entirely invalid non-empty
selection against a one-key registry falls back to the registry. -/
theorem C4_selection_policy_witness :
    (["bogus"] : List String) ≠ []
    ∧ (["bogus"].filter (fun a => (["fundamentals"] : List String).contains a)) = []
    ∧ agentsToUse ["fundamentals"] (some ["bogus"]) = ["fundamentals"] := by
  refine ⟨by decide, by decide, ?_⟩
  exact (C4_selection_policy ["fundamentals"]).2.1 ["bogus"] (by decide) (by decide)

/-- Builder helper: the analyst node-and-edge fold appends one
start-to-analyst edge per key. -/
theorem foldl_analyst_edges (l : List String) :
    ∀ w : StateGraphM,
      (l.foldl (fun w k =>
        addEdge (addNode w (agentNodeName k)) "start_node" (agentNodeName k)) w).edges
      = w.edges ++ l.map (fun k => ("start_node", agentNodeName k)) := by
  induction l with
  | nil => intro w; simp
  | cons k ks ih =>
    intro w
    simp only [List.foldl_cons, List.map_cons]
    rw [ih]
    simp [addEdge, addNode]

/-- Builder helper: the analyst-to-risk fold appends one edge per key. -/
theorem foldl_risk_edges (l : List String) :
    ∀ w : StateGraphM,
      (l.foldl (fun w k => addEdge w (agentNodeName k) "risk_management_agent") w).edges
      = w.edges ++ l.map (fun k => (agentNodeName k, "risk_management_agent")) := by
  induction l with
  | nil => intro w; simp
  | cons k ks ih =>
    intro w
    simp only [List.foldl_cons, List.map_cons]
    rw [ih]
    simp [addEdge]

/-- Builder helper: adding an edge appends it to the edge list. -/
theorem addEdge_edges (g : StateGraphM) (a b : String) :
    (addEdge g a b).edges = g.edges ++ [(a, b)] := rfl

/-- Builder helper: adding a node leaves the edge list unchanged. -/
theorem addNode_edges (g : StateGraphM) (n : String) :
    (addNode g n).edges = g.edges := rfl

/-- Builder helper: closed form of the edge list of the built graph. -/
theorem build_edges_eq (registry : List String) (selected : Option (List String)) :
    (build_agent_workflow registry selected).edges
      = (agentsToUse registry selected).map (fun k => ("start_node", agentNodeName k))
        ++ ((agentsToUse registry selected).map
              (fun k => (agentNodeName k, "risk_management_agent"))
        ++ ((if (agentsToUse registry selected).isEmpty
             then [("start_node", "risk_management_agent")] else [])
        ++ [("risk_management_agent", "portfolio_manager"),
            ("portfolio_manager", ENDNode)])) := by
  unfold build_agent_workflow
  dsimp only
  by_cases hemp : (agentsToUse registry selected).isEmpty
  · rw [if_pos hemp]
    simp only [addEdge_edges, addNode_edges]
    rw [foldl_risk_edges]
    simp only [addNode_edges]
    rw [foldl_analyst_edges]
    simp only [addNode_edges]
    simp [StateGraphM.empty, hemp, List.append_assoc]
  · rw [if_neg hemp]
    simp only [addEdge_edges, addNode_edges]
    rw [foldl_risk_edges]
    simp only [addNode_edges]
    rw [foldl_analyst_edges]
    simp only [addNode_edges]
    simp [StateGraphM.empty, hemp, List.append_assoc]

/-- Builder helper: filtering the paired map of a list with duplicate-
free images on one image value keeps exactly that pair. -/
theorem filter_map_pair_single {l : List String} (f : String → String)
    (hnd : (l.map f).Nodup) {k : String} (hk : k ∈ l) (b : String) :
    (l.map (fun x => (f x, b))).filter (fun e => e.1 = f k) = [(f k, b)] := by
  induction l with
  | nil => cases hk
  | cons x xs ih =>
    simp only [List.map_cons, List.nodup_cons] at hnd
    simp only [List.map_cons, List.filter_cons]
    by_cases hx : f x = f k
    · have hxs : ∀ y ∈ xs, ¬(f y = f k) := by
        intro y hy heq
        exact hnd.1 (hx ▸ heq ▸ List.mem_map.mpr ⟨y, hy, rfl⟩)
      have : (xs.map (fun x => (f x, b))).filter (fun e => e.1 = f k) = [] := by
        rw [List.filter_eq_nil]
        intro e he
        obtain ⟨y, hy, hye⟩ := List.mem_map.mp he
        simp [← hye, hxs y hy]
      simp [hx, this]
    · cases List.mem_cons.mp hk with
      | inl hkx => exact absurd (by rw [hkx]) hx
      | inr hkxs =>
        have := ih hnd.2 hkxs
        simp [hx, this]

/-- Builder helper: every edge of the built graph strictly increases
the topological node rank, provided analyst node names avoid the fixed
node names. -/
theorem build_edge_rank (registry : List String) (selected : Option (List String))
    (hres : ∀ k ∈ agentsToUse registry selected,
        agentNodeName k ∉ ["start_node", "risk_management_agent",
          "portfolio_manager", ENDNode]) :
    ∀ a b, (a, b) ∈ (build_agent_workflow registry selected).edges →
      nodeRank ((agentsToUse registry selected).map agentNodeName) a
        < nodeRank ((agentsToUse registry selected).map agentNodeName) b := by
  intro a b hab
  have hriskA : "risk_management_agent" ∉ (agentsToUse registry selected).map agentNodeName := by
    intro hmem
    obtain ⟨k, hk, hkeq⟩ := List.mem_map.mp hmem
    have := hres k hk
    simp [hkeq] at this
  have hportA : "portfolio_manager" ∉ (agentsToUse registry selected).map agentNodeName := by
    intro hmem
    obtain ⟨k, hk, hkeq⟩ := List.mem_map.mp hmem
    have := hres k hk
    simp [hkeq] at this
  have hendA : ENDNode ∉ (agentsToUse registry selected).map agentNodeName := by
    intro hmem
    obtain ⟨k, hk, hkeq⟩ := List.mem_map.mp hmem
    have := hres k hk
    simp [hkeq] at this
  have hrankRisk :
      nodeRank ((agentsToUse registry selected).map agentNodeName)
        "risk_management_agent" = 2 := by
    unfold nodeRank
    rw [if_neg (by decide), if_neg hriskA, if_pos rfl]
  have hrankPort :
      nodeRank ((agentsToUse registry selected).map agentNodeName)
        "portfolio_manager" = 3 := by
    unfold nodeRank
    rw [if_neg (by decide), if_neg hportA, if_neg (by decide), if_pos rfl]
  have hrankEnd :
      nodeRank ((agentsToUse registry selected).map agentNodeName) ENDNode = 4 := by
    unfold nodeRank
    rw [if_neg (by decide), if_neg hendA, if_neg (by decide), if_neg (by decide)]
  have hrankStart :
      nodeRank ((agentsToUse registry selected).map agentNodeName) "start_node" = 0 := by
    unfold nodeRank
    rw [if_pos rfl]
  have hrankAgent : ∀ k ∈ agentsToUse registry selected,
      nodeRank ((agentsToUse registry selected).map agentNodeName)
        (agentNodeName k) = 1 := by
    intro k hk
    have hr := hres k hk
    unfold nodeRank
    rw [if_neg (by simp at hr; exact hr.1),
      if_pos (List.mem_map.mpr ⟨k, hk, rfl⟩)]
  rw [build_edges_eq] at hab
  rcases List.mem_append.mp hab with h1 | hrest
  · obtain ⟨k, hk, hkeq⟩ := List.mem_map.mp h1
    obtain ⟨ha, hb⟩ := Prod.mk.injEq .. ▸ hkeq
    rw [← ha, ← hb, hrankStart, hrankAgent k hk]
    exact Nat.zero_lt_one
  rcases List.mem_append.mp hrest with h2 | hrest2
  · obtain ⟨k, hk, hkeq⟩ := List.mem_map.mp h2
    obtain ⟨ha, hb⟩ := Prod.mk.injEq .. ▸ hkeq
    rw [← ha, ← hb, hrankRisk, hrankAgent k hk]
    exact Nat.one_lt_two
  rcases List.mem_append.mp hrest2 with h3 | h4
  · by_cases hemp : (agentsToUse registry selected).isEmpty
    · rw [if_pos hemp] at h3
      cases List.mem_singleton.mp h3
      rw [hrankStart, hrankRisk]
      exact Nat.zero_lt_two
    · rw [if_neg hemp] at h3
      cases h3
  · rcases List.mem_cons.mp h4 with h5 | h6
    · cases h5
      rw [hrankRisk, hrankPort]
      omega
    · cases List.mem_singleton.mp h6
      rw [hrankPort, hrankEnd]
      omega

/-- Builder helper: a first-component filter over a pair map with no
matching first component keeps nothing. -/
theorem filter_pairs_fst_ne {l : List String} (fa fb : String → String) (n : String)
    (h : ∀ k ∈ l, fa k ≠ n) :
    (l.map (fun k => (fa k, fb k))).filter (fun e => e.1 = n) = [] := by
  rw [List.filter_eq_nil]
  intro e he
  obtain ⟨k, hk, hke⟩ := List.mem_map.mp he
  simp [← hke, h k hk]

/-- Builder helper: a second-component filter over a pair map with no
matching second component keeps nothing. -/
theorem filter_pairs_snd_ne {l : List String} (fa fb : String → String) (n : String)
    (h : ∀ k ∈ l, fb k ≠ n) :
    (l.map (fun k => (fa k, fb k))).filter (fun e => e.2 = n) = [] := by
  rw [List.filter_eq_nil]
  intro e he
  obtain ⟨k, hk, hke⟩ := List.mem_map.mp he
  simp [← hke, h k hk]

/-- Builder helper: a first-component filter over pairs that all start
with the filtered node keeps everything. -/
theorem filter_pairs_fst_all {l : List String} (fb : String → String) (n : String) :
    (l.map (fun k => (n, fb k))).filter (fun e => e.1 = n) = l.map (fun k => (n, fb k)) := by
  rw [List.filter_eq_self]
  intro e he
  obtain ⟨k, hk, hke⟩ := List.mem_map.mp he
  simp [← hke]

/-- C8: for every selection, the built graph has the spec's shape — the
entry node's out-edges are exactly one per included analysis node (or a
single direct edge to risk management when none), every analysis node
has exactly the one out-edge to risk management, risk management has
exactly the one out-edge to the portfolio manager, which alone reaches
the END sentinel, the entry point is the start node with no in-edges,
and the graph has no cycles.  The hypotheses pin down what holds of the
real registry: analyst node names are pairwise distinct and distinct
from the fixed node names. -/
theorem C8_graph_invariants (registry : List String) (selected : Option (List String))
    (hnd : ((agentsToUse registry selected).map agentNodeName).Nodup)
    (hres : ∀ k ∈ agentsToUse registry selected,
        agentNodeName k ∉ ["start_node", "risk_management_agent",
          "portfolio_manager", ENDNode]) :
    (agentsToUse registry selected ≠ [] →
      outEdges (build_agent_workflow registry selected) "start_node"
        = (agentsToUse registry selected).map (fun k => ("start_node", agentNodeName k)))
    ∧ (agentsToUse registry selected = [] →
      outEdges (build_agent_workflow registry selected) "start_node"
        = [("start_node", "risk_management_agent")])
    ∧ (∀ k ∈ agentsToUse registry selected,
        outEdges (build_agent_workflow registry selected) (agentNodeName k)
          = [(agentNodeName k, "risk_management_agent")])
    ∧ outEdges (build_agent_workflow registry selected) "risk_management_agent"
        = [("risk_management_agent", "portfolio_manager")]
    ∧ outEdges (build_agent_workflow registry selected) "portfolio_manager"
        = [("portfolio_manager", ENDNode)]
    ∧ (build_agent_workflow registry selected).entryPoint = some "start_node"
    ∧ inEdges (build_agent_workflow registry selected) "start_node" = []
    ∧ inEdges (build_agent_workflow registry selected) ENDNode
        = [("portfolio_manager", ENDNode)]
    ∧ Acyclic (build_agent_workflow registry selected) := by
  have hres4 : ∀ k ∈ agentsToUse registry selected,
      agentNodeName k ≠ "start_node" ∧ agentNodeName k ≠ "risk_management_agent"
      ∧ agentNodeName k ≠ "portfolio_manager" ∧ agentNodeName k ≠ ENDNode := by
    intro k hk
    have h := hres k hk
    simp only [List.mem_cons, List.not_mem_nil, or_false, not_or] at h
    exact h
  refine ⟨?_, ?_, ?_, ?_, ?_, ?_, ?_, ?_, ?_⟩
  · intro hne
    have hemp : (agentsToUse registry selected).isEmpty = false := by
      cases he : agentsToUse registry selected with
      | nil => exact absurd he hne
      | cons a l => rfl
    unfold outEdges
    rw [build_edges_eq]
    simp only [List.filter_append, hemp, if_false]
    rw [filter_pairs_fst_all, filter_pairs_fst_ne (fun k => agentNodeName k)
      (fun _ => "risk_management_agent") "start_node" (fun k hk => (hres4 k hk).1)]
    simp
  · intro hnil
    unfold outEdges
    rw [build_edges_eq, hnil]
    simp
  · intro k hk
    have hne : agentsToUse registry selected ≠ [] := by
      intro h
      rw [h] at hk
      cases hk
    have hemp : (agentsToUse registry selected).isEmpty = false := by
      cases he : agentsToUse registry selected with
      | nil => exact absurd he hne
      | cons a l => rfl
    unfold outEdges
    rw [build_edges_eq]
    simp only [List.filter_append, hemp, if_false]
    rw [filter_pairs_fst_ne (fun _ => "start_node") (fun k => agentNodeName k)
      (agentNodeName k) (fun k2 hk2 => fun h => ((hres4 k hk).1 h.symm))]
    rw [filter_map_pair_single agentNodeName hnd hk "risk_management_agent"]
    have hrest : ([("risk_management_agent", "portfolio_manager"),
        ("portfolio_manager", ENDNode)].filter (fun e => e.1 = agentNodeName k)) = [] := by
      simp [(hres4 k hk).2.1.symm, ((hres4 k hk).2.2.1).symm]
    simp only [List.filter_nil, hrest]
    simp
  · unfold outEdges
    rw [build_edges_eq]
    simp only [List.filter_append]
    rw [filter_pairs_fst_ne (fun _ => "start_node") (fun k => agentNodeName k)
      "risk_management_agent" (fun k hk hcontra =>
        absurd hcontra (show "start_node" ≠ "risk_management_agent" by decide))]
    rw [filter_pairs_fst_ne (fun k => agentNodeName k)
      (fun _ => "risk_management_agent") "risk_management_agent"
      (fun k hk => (hres4 k hk).2.1)]
    have hif : ((if (agentsToUse registry selected).isEmpty
        then [("start_node", "risk_management_agent")] else []).filter
          (fun e => e.1 = "risk_management_agent")) = [] := by
      by_cases hemp : (agentsToUse registry selected).isEmpty <;> simp [hemp]
    rw [hif]
    simp
  · unfold outEdges
    rw [build_edges_eq]
    simp only [List.filter_append]
    rw [filter_pairs_fst_ne (fun _ => "start_node") (fun k => agentNodeName k)
      "portfolio_manager" (fun k hk hcontra =>
        absurd hcontra (show "start_node" ≠ "portfolio_manager" by decide))]
    rw [filter_pairs_fst_ne (fun k => agentNodeName k)
      (fun _ => "risk_management_agent") "portfolio_manager"
      (fun k hk => (hres4 k hk).2.2.1)]
    have hif : ((if (agentsToUse registry selected).isEmpty
        then [("start_node", "risk_management_agent")] else []).filter
          (fun e => e.1 = "portfolio_manager")) = [] := by
      by_cases hemp : (agentsToUse registry selected).isEmpty <;> simp [hemp]
    rw [hif]
    simp
  · rfl
  · unfold inEdges
    rw [build_edges_eq]
    simp only [List.filter_append]
    rw [filter_pairs_snd_ne (fun _ => "start_node") (fun k => agentNodeName k)
      "start_node" (fun k hk => (hres4 k hk).1)]
    rw [filter_pairs_snd_ne (fun k => agentNodeName k)
      (fun _ => "risk_management_agent") "start_node"
      (fun k hk hcontra =>
        absurd hcontra (show "risk_management_agent" ≠ "start_node" by decide))]
    have hif : ((if (agentsToUse registry selected).isEmpty
        then [("start_node", "risk_management_agent")] else []).filter
          (fun e => e.2 = "start_node")) = [] := by
      by_cases hemp : (agentsToUse registry selected).isEmpty <;> simp [hemp]
    rw [hif]
    simp [ENDNode]
  · unfold inEdges
    rw [build_edges_eq]
    simp only [List.filter_append]
    rw [filter_pairs_snd_ne (fun _ => "start_node") (fun k => agentNodeName k)
      ENDNode (fun k hk => (hres4 k hk).2.2.2)]
    rw [filter_pairs_snd_ne (fun k => agentNodeName k)
      (fun _ => "risk_management_agent") ENDNode
      (fun k hk hcontra =>
        absurd hcontra (show "risk_management_agent" ≠ ENDNode by decide))]
    have hif : ((if (agentsToUse registry selected).isEmpty
        then [("start_node", "risk_management_agent")] else []).filter
          (fun e => e.2 = ENDNode)) = [] := by
      by_cases hemp : (agentsToUse registry selected).isEmpty <;> simp [hemp, ENDNode]
    rw [hif]
    simp [ENDNode]
  · intro n hn
    have mono : ∀ a b : String,
        Relation.TransGen (EdgeRel (build_agent_workflow registry selected)) a b →
        nodeRank ((agentsToUse registry selected).map agentNodeName) a
          < nodeRank ((agentsToUse registry selected).map agentNodeName) b := by
      intro a b h
      induction h with
      | single h1 => exact build_edge_rank registry selected hres _ _ h1
      | tail h1 h2 ih =>
        exact Nat.lt_trans ih (build_edge_rank registry selected hres _ _ h2)
    exact Nat.lt_irrefl _ (mono n n hn)

/-- Witness for C8_graph_invariants: a two-analyst registry with the
full (None) selection. -/
theorem C8_graph_invariants_witness :
    ((agentsToUse ["fundamentals", "sentiment"] none).map agentNodeName).Nodup
    ∧ outEdges (build_agent_workflow ["fundamentals", "sentiment"] none)
        "risk_management_agent" = [("risk_management_agent", "portfolio_manager")]
    ∧ outEdges (build_agent_workflow ["fundamentals", "sentiment"] none) "start_node"
        = [("start_node", "fundamentals_agent"), ("start_node", "sentiment_agent")] := by
  have h := C8_graph_invariants ["fundamentals", "sentiment"] none (by decide) (by decide)
  refine ⟨by decide, h.2.2.2.1, ?_⟩
  have h1 := h.1 (by decide)
  rw [h1]
  rfl

/-- C5, counterexample: the synthesized default for a string field is
the fixed message, not the empty string the claim states. -/
theorem C5_counterexample :
    create_default_response [("reasoning", Ann.strA)]
      = [("reasoning", DefVal.strV "Error in analysis, using default")]
    ∧ create_default_response [("reasoning", Ann.strA)]
        ≠ [("reasoning", DefVal.strV "")] :=
  ⟨rfl, by decide⟩

/-- C5, amended: when the final attempt fails with no fallback factory,
the synthesized default assigns the fixed message string (not the empty
string) to string fields, zero to numeric fields, an empty mapping to
mapping fields, the first declared option to enumerated fields, and a
null marker to every other field. -/
theorem C5_default_synthesis (fields : List (String × Ann)) (n : String) (a : Ann)
    (h : (n, a) ∈ fields) :
    (n, defaultValueFor a) ∈ create_default_response fields
    ∧ defaultValueFor Ann.strA = DefVal.strV "Error in analysis, using default"
    ∧ defaultValueFor Ann.floatA = DefVal.floatV 0
    ∧ defaultValueFor Ann.intA = DefVal.intV 0
    ∧ defaultValueFor Ann.dictA = DefVal.dictV
    ∧ (∀ f r, defaultValueFor (Ann.literalA f r) = DefVal.litV f)
    ∧ defaultValueFor Ann.plainA = DefVal.noneV := by
  refine ⟨?_, rfl, rfl, rfl, rfl, fun f r => rfl, rfl⟩
  exact List.mem_map.mpr ⟨(n, a), h, rfl⟩

/-- Witness for C5_default_synthesis on a Literal signal field. -/
theorem C5_default_synthesis_witness :
    ("signal", Ann.literalA "bullish" ["bearish", "neutral"])
      ∈ [("signal", Ann.literalA "bullish" ["bearish", "neutral"]), ("confidence", Ann.floatA)]
    ∧ ("signal", DefVal.litV "bullish")
      ∈ create_default_response
          [("signal", Ann.literalA "bullish" ["bearish", "neutral"]), ("confidence", Ann.floatA)] :=
  ⟨by decide,
   (C5_default_synthesis
      [("signal", Ann.literalA "bullish" ["bearish", "neutral"]), ("confidence", Ann.floatA)]
      "signal" (Ann.literalA "bullish" ["bearish", "neutral"]) (by decide)).1⟩

/-- Agent helper: signalFor on a cons checks the head key first. -/
theorem signalFor_cons (k2 : String) (v2 : SignalEntry) (rest : List (String × SignalEntry))
    (t : String) :
    signalFor ((k2, v2) :: rest) t = if k2 = t then some v2 else signalFor rest t := by
  unfold signalFor
  by_cases h : k2 = t
  · rw [List.find?_cons_of_pos _ (by simp [h]), if_pos h]
    rfl
  · rw [List.find?_cons_of_neg _ (by simp [h]), if_neg h]

/-- Agent helper: dict assignment updates exactly the written key. -/
theorem signalFor_assocSet (k : String) (v : SignalEntry) (t : String) :
    ∀ acc : List (String × SignalEntry),
      signalFor (assocSet acc k v) t = if k = t then some v else signalFor acc t := by
  intro acc
  induction acc with
  | nil =>
    show signalFor [(k, v)] t = if k = t then some v else signalFor [] t
    rw [signalFor_cons]
  | cons p rest ih =>
    obtain ⟨k2, v2⟩ := p
    show signalFor (if k2 = k then (k2, v) :: rest else (k2, v2) :: assocSet rest k v) t
      = if k = t then some v else signalFor ((k2, v2) :: rest) t
    by_cases h2 : k2 = k
    · subst h2
      rw [if_pos rfl, signalFor_cons, signalFor_cons]
      by_cases h : k2 = t <;> simp [h]
    · rw [if_neg h2, signalFor_cons, signalFor_cons, ih]
      by_cases h : k2 = t
      · subst h
        rw [if_pos rfl, if_neg (fun he => h2 he.symm), if_pos rfl]
      · rw [if_neg h, if_neg h]

/-- Agent helper: a ticker with no financial metrics never gets a key
in the accumulated analysis mapping. -/
theorem fundamentals_fold_none (api : DataProvider) (end_date t : String)
    (h : api.get_financial_metrics t end_date = []) :
    ∀ (tickers : List String) (acc : List (String × SignalEntry)),
      signalFor acc t = none →
      signalFor (tickers.foldl (fun acc ticker =>
        match api.get_financial_metrics ticker end_date with
        | [] => acc
        | metrics :: _ => assocSet acc ticker (tickerAnalysis api end_date ticker metrics)) acc) t
        = none := by
  intro tickers
  induction tickers with
  | nil => intro acc hacc; exact hacc
  | cons tk rest ih =>
    intro acc hacc
    simp only [List.foldl_cons]
    cases hm : api.get_financial_metrics tk end_date with
    | nil =>
      simp only [hm]
      exact ih acc hacc
    | cons m ms =>
      simp only [hm]
      apply ih
      rw [signalFor_assocSet]
      by_cases htk : tk = t
      · subst htk; rw [hm] at h; cases h
      · rw [if_neg htk]; exact hacc

/-- Agent helper: every entry in the folded analysis mapping is either
inherited or a per-ticker analysis result. -/
theorem fundamentals_fold_entries (api : DataProvider) (end_date : String)
    (P : SignalEntry → Prop)
    (hP : ∀ (t : String) (m : FinMetrics), P (tickerAnalysis api end_date t m)) :
    ∀ (tickers : List String) (acc : List (String × SignalEntry)),
      (∀ t e, signalFor acc t = some e → P e) →
      ∀ t e, signalFor (tickers.foldl (fun acc ticker =>
        match api.get_financial_metrics ticker end_date with
        | [] => acc
        | metrics :: _ => assocSet acc ticker (tickerAnalysis api end_date ticker metrics)) acc) t
          = some e → P e := by
  intro tickers
  induction tickers with
  | nil => intro acc hacc; exact hacc
  | cons tk rest ih =>
    intro acc hacc
    simp only [List.foldl_cons]
    cases hm : api.get_financial_metrics tk end_date with
    | nil =>
      simp only [hm]
      exact ih acc hacc
    | cons m ms =>
      simp only [hm]
      apply ih
      intro t e he
      rw [signalFor_assocSet] at he
      by_cases htk : tk = t
      · rw [if_pos htk] at he
        cases he
        exact hP tk m
      · rw [if_neg htk] at he
        exact hacc t e he

/-- Agent helper: a rounded fraction in the unit interval scaled by 100
stays within 0 and 100. -/
theorem pyRound2_mul100_bounds (q : ℚ) (h0 : 0 ≤ q) (h1 : q ≤ 1) :
    0 ≤ pyRound2 q * 100 ∧ pyRound2 q * 100 ≤ 100 := by
  unfold pyRound2
  dsimp only
  rw [div_mul_cancel₀ _ (by norm_num : (100 : ℚ) ≠ 0)]
  have hf : Rat.floor (q * 100) = ⌊q * 100⌋ := by rw [Rat.floor_def', Rat.floor_def]
  rw [hf]
  have hfl0 : (0 : ℤ) ≤ ⌊q * 100⌋ := Int.floor_nonneg.mpr (by nlinarith)
  have hfle : ((⌊q * 100⌋ : ℤ) : ℚ) ≤ q * 100 := Int.floor_le _
  have hs100 : q * 100 ≤ 100 := by nlinarith
  by_cases hc1 : q * 100 - ((⌊q * 100⌋ : ℤ) : ℚ) < 1 / 2
  · rw [if_pos hc1]
    exact ⟨by exact_mod_cast hfl0, le_trans hfle hs100⟩
  · rw [if_neg hc1]
    have hge : (1 : ℚ) / 2 ≤ q * 100 - ((⌊q * 100⌋ : ℤ) : ℚ) := not_lt.mp hc1
    have hplus : ⌊q * 100⌋ + 1 ≤ 100 := by
      have hlt : ((⌊q * 100⌋ + 1 : ℤ) : ℚ) < 101 := by push_cast; linarith
      have : ⌊q * 100⌋ + 1 < 101 := by exact_mod_cast hlt
      omega
    by_cases hc2 : (1 : ℚ) / 2 < q * 100 - ((⌊q * 100⌋ : ℤ) : ℚ)
    · rw [if_pos hc2]
      exact ⟨by exact_mod_cast (by omega : (0 : ℤ) ≤ ⌊q * 100⌋ + 1),
        by exact_mod_cast hplus⟩
    · rw [if_neg hc2]
      by_cases hc3 : ⌊q * 100⌋ % 2 = 0
      · rw [if_pos hc3]
        exact ⟨by exact_mod_cast hfl0, le_trans hfle hs100⟩
      · rw [if_neg hc3]
        exact ⟨by exact_mod_cast (by omega : (0 : ℤ) ≤ ⌊q * 100⌋ + 1),
          by exact_mod_cast hplus⟩

/-- Agent helper: the confidence computed from the bullish and bearish
counts of any signals list lies in the 0-100 range. -/
theorem conf_of_counts (S : List String) :
    0 ≤ pyRound2 (max ((S.count "bullish" : ℕ) : ℚ) ((S.count "bearish" : ℕ) : ℚ)
        / ((S.length : ℕ) : ℚ)) * 100
    ∧ pyRound2 (max ((S.count "bullish" : ℕ) : ℚ) ((S.count "bearish" : ℕ) : ℚ)
        / ((S.length : ℕ) : ℚ)) * 100 ≤ 100 := by
  have hb : S.count "bullish" ≤ S.length := List.count_le_length _ _
  have hr : S.count "bearish" ≤ S.length := List.count_le_length _ _
  by_cases hn : S.length = 0
  · have hb0 : S.count "bullish" = 0 := by omega
    have hr0 : S.count "bearish" = 0 := by omega
    rw [hb0, hr0, hn]
    apply pyRound2_mul100_bounds <;> norm_num
  · have hnq : (0 : ℚ) < ((S.length : ℕ) : ℚ) := by
      exact_mod_cast Nat.pos_of_ne_zero hn
    apply pyRound2_mul100_bounds
    · apply div_nonneg _ (le_of_lt hnq)
      exact le_max_of_le_left (by positivity)
    · rw [div_le_one hnq]
      apply max_le <;> exact_mod_cast (by assumption)

/-- Agent helper: every per-ticker entry has a signal among the three
allowed values and a confidence between 0 and 100. -/
theorem analyzeTicker_props (m : FinMetrics) (history : List Dividend)
    (cp eps : Option ℚ) (ed : String) :
    ((analyzeTicker m history cp eps ed).signal = "bullish"
      ∨ (analyzeTicker m history cp eps ed).signal = "bearish"
      ∨ (analyzeTicker m history cp eps ed).signal = "neutral")
    ∧ 0 ≤ (analyzeTicker m history cp eps ed).confidence
    ∧ (analyzeTicker m history cp eps ed).confidence ≤ 100 := by
  unfold analyzeTicker
  dsimp only
  refine ⟨?_, (conf_of_counts _).1, (conf_of_counts _).2⟩
  split_ifs <;> simp

/-- C9: fundamentals_agent skips every ticker whose provider returns no
financial metrics, leaving it without a key in the analysis mapping,
and every emitted entry has a signal in the three-valued enumeration
and a confidence in the 0-100 range. -/
theorem C9_fundamentals (api : DataProvider) (tickers : List String) (end_date : String) :
    (∀ t, api.get_financial_metrics t end_date = [] →
        signalFor (fundamentals_agent api tickers end_date) t = none)
    ∧ (∀ t e, signalFor (fundamentals_agent api tickers end_date) t = some e →
        (e.signal = "bullish" ∨ e.signal = "bearish" ∨ e.signal = "neutral")
        ∧ 0 ≤ e.confidence ∧ e.confidence ≤ 100) := by
  constructor
  · intro t ht
    unfold fundamentals_agent
    exact fundamentals_fold_none api end_date t ht tickers [] rfl
  · intro t e he
    unfold fundamentals_agent at he
    refine fundamentals_fold_entries api end_date
      (fun e => (e.signal = "bullish" ∨ e.signal = "bearish" ∨ e.signal = "neutral")
        ∧ 0 ≤ e.confidence ∧ e.confidence ≤ 100)
      ?_ tickers [] (fun t' e' h => nomatch h) t e he
    intro t' m
    unfold tickerAnalysis
    dsimp only
    exact analyzeTicker_props m _ _ _ _

/-- Witness for C9_fundamentals: the end-to-end scenario with metrics
for AAA only — BBB is skipped, the AAA entry is bearish at confidence
80, within the enumeration and range. -/
theorem C9_fundamentals_witness :
    scenarioApi.get_financial_metrics "BBB" "2024-01-01" = []
    ∧ signalFor (fundamentals_agent scenarioApi ["AAA", "BBB"] "2024-01-01") "BBB" = none
    ∧ signalFor (fundamentals_agent scenarioApi ["AAA", "BBB"] "2024-01-01") "AAA"
        = some ⟨"bearish", 80⟩
    ∧ (((⟨"bearish", 80⟩ : SignalEntry).signal = "bullish"
        ∨ (⟨"bearish", 80⟩ : SignalEntry).signal = "bearish"
        ∨ (⟨"bearish", 80⟩ : SignalEntry).signal = "neutral")
      ∧ 0 ≤ (⟨"bearish", 80⟩ : SignalEntry).confidence
      ∧ (⟨"bearish", 80⟩ : SignalEntry).confidence ≤ 100) := by
  have h := C9_fundamentals scenarioApi ["AAA", "BBB"] "2024-01-01"
  have hconf : pyRound2 (max ((1 : ℕ) : ℚ) ((4 : ℕ) : ℚ) / ((5 : ℕ) : ℚ)) * 100 = 80 := by
    have hm : max ((1 : ℕ) : ℚ) ((4 : ℕ) : ℚ) / ((5 : ℕ) : ℚ) = 4 / 5 := by
      rw [max_eq_right (by norm_num)]
      norm_num
    rw [hm]
    unfold pyRound2
    dsimp only
    have h80 : (4 : ℚ) / 5 * 100 = 80 := by norm_num
    rw [h80]
    have hfl : Rat.floor (80 : ℚ) = 80 := by
      rw [Rat.floor_def']
      norm_num [Rat.num_ofNat, Rat.den_ofNat]
    rw [hfl]
    rw [if_pos (by norm_num)]
    norm_num
  have hAAA : signalFor (fundamentals_agent scenarioApi ["AAA", "BBB"] "2024-01-01") "AAA"
      = some ⟨"bearish", 80⟩ := by
    calc signalFor (fundamentals_agent scenarioApi ["AAA", "BBB"] "2024-01-01") "AAA"
        = some ⟨"bearish",
            pyRound2 (max ((1 : ℕ) : ℚ) ((4 : ℕ) : ℚ) / ((5 : ℕ) : ℚ)) * 100⟩ := rfl
      _ = some ⟨"bearish", 80⟩ := by rw [hconf]
  exact ⟨rfl, h.1 "BBB" rfl, hAAA, h.2 "AAA" ⟨"bearish", 80⟩ hAAA⟩

end HedgeFund
